import Mathlib

/-!
Verification of the Daily Report Processor against its specification.

The development shallowly embeds the program's core functions:

* `clean_dish_name` — the Text Normalizer (`clean_dish_name` in the source),
  modelled on `List Char` with Python's `str.replace`, digit removal,
  `str.upper` and whitespace collapse (`' '.join(s.split())`) translated
  step by step.
* `Frame` — a column-major model of a pandas `DataFrame`; the operations
  used by `process_report` (`ffill`, `drop`, `insert`, column assignment,
  `drop_duplicates`, column projection) are translated faithfully, with the
  external pandas parsers (`pd.to_datetime`, `.dt.date`) and the dish
  normalizer kept as function parameters since no claim depends on their
  internals.
* `merge_files` / `main` — the ingestion loop with its `try/except`
  structure (a `UnicodeDecodeError` from the GBK attempt triggers a UTF-8
  retry whose own failure propagates; any other exception from the GBK
  attempt is caught and logged) and the driver's empty-result check.
-/

set_option autoImplicit false

/-! ## Character helpers -/

/-- ASCII decimal-digit test, modelling Python's `str.isdigit`. -/
def isDigitCh (c : Char) : Bool := decide (48 ≤ c.toNat ∧ c.toNat ≤ 57)

/-- Whitespace recognised by Python's `str.split()`. -/
def isSpaceCh (c : Char) : Bool :=
  decide (c = ' ' ∨ c = '\t' ∨ c = '\n' ∨ c = '\r' ∨ c = '\x0b' ∨ c = '\x0c')

/-- ASCII uppercasing of one character, modelling Python's `str.upper`. -/
def upChar (c : Char) : Char :=
  if 97 ≤ c.toNat ∧ c.toNat ≤ 122 then Char.ofNat (c.toNat - 32) else c

theorem toNat_charOfNat (n : Nat) (h : n.isValidChar) : (Char.ofNat n).toNat = n := by
  simp only [Char.ofNat, dif_pos h, Char.ofNatAux, Char.toNat, UInt32.toNat]
  rfl

theorem char_eq_of_toNat_eq {c d : Char} (h : c.toNat = d.toNat) : c = d :=
  Char.eq_of_val_eq (UInt32.toNat.inj h)

theorem isValidChar_of_le {n : Nat} (h : n ≤ 122) : n.isValidChar :=
  Or.inl (by omega)

theorem toNat_upChar_of_lower {c : Char} (h : 97 ≤ c.toNat ∧ c.toNat ≤ 122) :
    (upChar c).toNat = c.toNat - 32 := by
  unfold upChar
  rw [if_pos h]
  exact toNat_charOfNat _ (isValidChar_of_le (by omega))

theorem upChar_of_not_lower {c : Char} (h : ¬(97 ≤ c.toNat ∧ c.toNat ≤ 122)) :
    upChar c = c := by
  unfold upChar
  rw [if_neg h]

/-- The result of `upChar` is never an ASCII lowercase letter. -/
theorem upChar_not_lower (c : Char) : ¬(97 ≤ (upChar c).toNat ∧ (upChar c).toNat ≤ 122) := by
  by_cases h : 97 ≤ c.toNat ∧ c.toNat ≤ 122
  · rw [toNat_upChar_of_lower h]; omega
  · rw [upChar_of_not_lower h]; exact h

theorem upChar_upChar (c : Char) : upChar (upChar c) = upChar c :=
  upChar_of_not_lower (upChar_not_lower c)

/-- If `x` is not an ASCII uppercase letter, only `x` itself uppercases to it. -/
theorem eq_of_upChar_eq {c x : Char} (hx : ¬(65 ≤ x.toNat ∧ x.toNat ≤ 90))
    (h : upChar c = x) : c = x := by
  by_cases hl : 97 ≤ c.toNat ∧ c.toNat ≤ 122
  · exfalso
    have := toNat_upChar_of_lower hl
    rw [h] at this
    omega
  · rw [upChar_of_not_lower hl] at h; exact h

theorem isDigitCh_upChar {c : Char} (h : isDigitCh (upChar c) = true) : isDigitCh c = true := by
  by_cases hl : 97 ≤ c.toNat ∧ c.toNat ≤ 122
  · exfalso
    simp only [isDigitCh, decide_eq_true_iff] at h
    have := toNat_upChar_of_lower hl
    omega
  · rwa [upChar_of_not_lower hl] at h

theorem upChar_ne_n (c : Char) : upChar c ≠ 'n' := by
  intro h
  have hc : c = 'n' := eq_of_upChar_eq (by decide) h
  subst hc
  have h2 : (upChar 'n').toNat = ('n').toNat - 32 := toNat_upChar_of_lower (by decide)
  rw [h] at h2
  have h3 : ('n').toNat = 110 := by decide
  omega

/-! ## Python `str.replace` on `List Char`

`pyReplaceF` is a fuel-indexed, structurally recursive rendering of
Python's `str.replace(old, new)` (replace every leftmost non-overlapping
occurrence).  `pyReplace` supplies fuel equal to the string length, which
is always sufficient because each step consumes at least one character. -/

def pyReplaceF (old new : List Char) : Nat → List Char → List Char
  | _, [] => []
  | 0, s => s
  | n+1, c :: cs =>
    if old ≠ [] ∧ old.isPrefixOf (c :: cs) then
      new ++ pyReplaceF old new n (List.drop (old.length - 1) cs)
    else
      c :: pyReplaceF old new n cs

def pyReplace (old new s : List Char) : List Char := pyReplaceF old new s.length s

/-! ## Python `str.split()` / `' '.join` on `List Char` -/

def wordsF : Nat → List Char → List (List Char)
  | _, [] => []
  | 0, _ => []
  | n+1, c :: cs =>
    if isSpaceCh c then wordsF n cs
    else (c :: cs.takeWhile (fun d => !isSpaceCh d)) :: wordsF n (cs.dropWhile (fun d => !isSpaceCh d))

/-- Python's `s.split()`: maximal runs of non-whitespace characters. -/
def words (s : List Char) : List (List Char) := wordsF s.length s

/-- Python's `' '.join(ws)`. -/
def unwords : List (List Char) → List Char
  | [] => []
  | [w] => w
  | w :: ws => w ++ ' ' :: unwords ws

/-! ## The Text Normalizer -/

/-- Body of `clean_dish_name` on an actual string (`List Char`), translated
line by line from the source: remove `(`, `)`, `.`, `@`; apply the
replacement table in its insertion order (`W/`→`WITH`, `&`→`AND`,
`' WIT '`→`' WITH '`, literal `\n`→`' '`, `PCS`→`''`); strip digits;
uppercase; collapse whitespace via `' '.join(text.upper().split())`. -/
def clean_dish_name_str (text : List Char) : List Char :=
  let t1 := pyReplace ['('] [] text
  let t2 := pyReplace [')'] [] t1
  let t3 := pyReplace ['.'] [] t2
  let t4 := pyReplace ['@'] [] t3
  let t5 := pyReplace "W/".toList "WITH".toList t4
  let t6 := pyReplace "&".toList "AND".toList t5
  let t7 := pyReplace " WIT ".toList " WITH ".toList t6
  let t8 := pyReplace "\\n".toList " ".toList t7
  let t9 := pyReplace "PCS".toList [] t8
  unwords (words ((t9.filter fun c => !isDigitCh c).map upChar))

/-- A Python value passed to `clean_dish_name`: either a string or any
non-string object (the `tag` distinguishes different non-string inputs). -/
inductive PyObj where
  | pstr (s : List Char)
  | nonString (tag : Nat)
deriving DecidableEq

/-- `clean_dish_name`: non-strings are mapped to the empty string by the
`isinstance` guard; strings go through the normalization pipeline.  The
function is total, mirroring the absence of error paths in the source. -/
def clean_dish_name : PyObj → List Char
  | .pstr s => clean_dish_name_str s
  | .nonString _ => []

/-! ### Lemmas about `pyReplaceF` -/

theorem pyReplaceF_of_not_infix (old new : List Char) :
    ∀ (n : Nat) (s : List Char), ¬ old <:+: s → pyReplaceF old new n s = s := by
  intro n
  induction n with
  | zero => intro s _; cases s <;> rfl
  | succ n ih =>
    intro s hs
    cases s with
    | nil => rfl
    | cons c cs =>
      have hcond : ¬ (old ≠ [] ∧ old.isPrefixOf (c :: cs) = true) := by
        rintro ⟨-, hpre⟩
        exact hs ((List.isPrefixOf_iff_prefix.mp hpre).isInfix)
      simp only [pyReplaceF, if_neg hcond]
      exact congrArg (List.cons c) (ih cs (fun h => hs (List.infix_cons h)))

theorem pyReplace_of_not_infix (old new s : List Char) (h : ¬ old <:+: s) :
    pyReplace old new s = s :=
  pyReplaceF_of_not_infix old new s.length s h

theorem mem_pyReplaceF (old new : List Char) :
    ∀ (n : Nat) (s : List Char) (c : Char), c ∈ pyReplaceF old new n s → c ∈ s ∨ c ∈ new := by
  intro n
  induction n with
  | zero =>
    intro s c h
    cases s with
    | nil => simp [pyReplaceF] at h
    | cons a as => simp only [pyReplaceF] at h; exact Or.inl h
  | succ n ih =>
    intro s c h
    cases s with
    | nil => simp [pyReplaceF] at h
    | cons a as =>
      simp only [pyReplaceF] at h
      by_cases hc : old ≠ [] ∧ old.isPrefixOf (a :: as) = true
      · rw [if_pos hc] at h
        rcases List.mem_append.mp h with hn | hr
        · exact Or.inr hn
        · rcases ih _ c hr with hs | hn
          · exact Or.inl (List.mem_cons_of_mem a (List.drop_subset _ _ hs))
          · exact Or.inr hn
      · rw [if_neg hc] at h
        rcases List.mem_cons.mp h with rfl | hr
        · exact Or.inl (List.mem_cons_self _ _)
        · rcases ih as c hr with h1 | h2
          · exact Or.inl (List.mem_cons_of_mem a h1)
          · exact Or.inr h2

theorem not_mem_pyReplaceF_single (a : Char) (new : List Char) (ha : a ∉ new) :
    ∀ (n : Nat) (s : List Char), s.length ≤ n → a ∉ pyReplaceF [a] new n s := by
  intro n
  induction n with
  | zero =>
    intro s hlen
    have hnil : s = [] := List.length_eq_zero.mp (Nat.le_zero.mp hlen)
    subst hnil
    simp [pyReplaceF]
  | succ n ih =>
    intro s hlen
    cases s with
    | nil => simp [pyReplaceF]
    | cons c cs =>
      simp only [pyReplaceF]
      have hlen2 : cs.length ≤ n := by
        simp only [List.length_cons] at hlen
        omega
      by_cases hc : ([a] : List Char) ≠ [] ∧ List.isPrefixOf [a] (c :: cs) = true
      · rw [if_pos hc]
        intro hmem
        rcases List.mem_append.mp hmem with h1 | h2
        · exact ha h1
        · have hdrop : List.drop (List.length [a] - 1) cs = cs := by simp
          rw [hdrop] at h2
          exact ih cs hlen2 h2
      · rw [if_neg hc]
        intro hmem
        rcases List.mem_cons.mp hmem with rfl | h2
        · refine hc ⟨by simp, ?_⟩
          simp [List.isPrefixOf]
        · exact ih cs hlen2 h2

theorem not_mem_pyReplace_of (old new s : List Char) (c : Char) (hs : c ∉ s) (hn : c ∉ new) :
    c ∉ pyReplace old new s := by
  intro h
  rcases mem_pyReplaceF old new s.length s c h with h1 | h2
  · exact hs h1
  · exact hn h2

theorem not_mem_pyReplace_single (a : Char) (new s : List Char) (hn : a ∉ new) :
    a ∉ pyReplace [a] new s :=
  not_mem_pyReplaceF_single a new hn s.length s (Nat.le_refl _)

theorem not_infix_of_not_mem {a : Char} {p s : List Char} (hp : a ∈ p) (h : a ∉ s) :
    ¬ p <:+: s :=
  fun hin => h (hin.subset hp)

/-! ### Lemmas about `wordsF`, `words` and `unwords` -/

theorem length_dropWhile_le {α : Type} (p : α → Bool) (l : List α) :
    (l.dropWhile p).length ≤ l.length := by
  induction l with
  | nil => simp [List.dropWhile]
  | cons a l ih =>
    rw [List.dropWhile_cons]
    by_cases h : p a = true
    · rw [if_pos h]; exact Nat.le_succ_of_le ih
    · rw [if_neg h]

theorem wordsF_fuel :
    ∀ (n : Nat) (s : List Char) (m : Nat), s.length ≤ n → s.length ≤ m →
      wordsF n s = wordsF m s := by
  intro n
  induction n with
  | zero =>
    intro s m h1 _
    have hnil : s = [] := List.length_eq_zero.mp (Nat.le_zero.mp h1)
    subst hnil
    cases m <;> rfl
  | succ n ih =>
    intro s m h1 h2
    cases s with
    | nil => cases m <;> rfl
    | cons c cs =>
      cases m with
      | zero => simp at h2
      | succ m =>
        simp only [List.length_cons] at h1 h2
        simp only [wordsF]
        by_cases hsp : isSpaceCh c = true
        · rw [if_pos hsp, if_pos hsp]
          exact ih cs m (by omega) (by omega)
        · rw [if_neg hsp, if_neg hsp]
          congr 1
          exact ih _ m
            (le_trans (length_dropWhile_le _ _) (by omega))
            (le_trans (length_dropWhile_le _ _) (by omega))

theorem wordsF_mem :
    ∀ (n : Nat) (s : List Char) (w : List Char), s.length ≤ n → w ∈ wordsF n s →
      w ≠ [] ∧ ∀ c ∈ w, isSpaceCh c = false ∧ c ∈ s := by
  intro n
  induction n with
  | zero =>
    intro s w h1 h2
    have hnil : s = [] := List.length_eq_zero.mp (Nat.le_zero.mp h1)
    subst hnil
    simp [wordsF] at h2
  | succ n ih =>
    intro s w h1 h2
    cases s with
    | nil => simp [wordsF] at h2
    | cons c cs =>
      simp only [List.length_cons] at h1
      simp only [wordsF] at h2
      by_cases hsp : isSpaceCh c = true
      · rw [if_pos hsp] at h2
        obtain ⟨hne, hall⟩ := ih cs w (by omega) h2
        exact ⟨hne, fun d hd => ⟨(hall d hd).1, List.mem_cons_of_mem c (hall d hd).2⟩⟩
      · rw [if_neg hsp] at h2
        rcases List.mem_cons.mp h2 with rfl | h2
        · refine ⟨by simp, ?_⟩
          intro d hd
          rcases List.mem_cons.mp hd with rfl | hd
          · exact ⟨by simpa using hsp, List.mem_cons_self _ _⟩
          · have hp := List.mem_takeWhile_imp hd
            refine ⟨by simpa using hp, ?_⟩
            exact List.mem_cons_of_mem c ((List.takeWhile_sublist _).subset hd)
        · obtain ⟨hne, hall⟩ := ih _ w (le_trans (length_dropWhile_le _ _) (by omega)) h2
          refine ⟨hne, fun d hd => ⟨(hall d hd).1, ?_⟩⟩
          exact List.mem_cons_of_mem c ((List.dropWhile_sublist _).subset (hall d hd).2)

theorem takeWhile_append_of_all {α : Type} (p : α → Bool) (w y : List α)
    (hw : ∀ c ∈ w, p c = true) :
    (w ++ y).takeWhile p = w ++ y.takeWhile p := by
  induction w with
  | nil => simp
  | cons a w ih =>
    have ha : p a = true := hw a (List.mem_cons_self a w)
    simp only [List.cons_append, List.takeWhile_cons, ha, if_true]
    rw [ih (fun c hc => hw c (List.mem_cons_of_mem a hc))]

theorem dropWhile_append_of_all {α : Type} (p : α → Bool) (w y : List α)
    (hw : ∀ c ∈ w, p c = true) :
    (w ++ y).dropWhile p = y.dropWhile p := by
  induction w with
  | nil => simp
  | cons a w ih =>
    have ha : p a = true := hw a (List.mem_cons_self a w)
    simp only [List.cons_append, List.dropWhile_cons, ha, if_true]
    exact ih (fun c hc => hw c (List.mem_cons_of_mem a hc))

theorem wordsF_append_space (n : Nat) (w s : List Char) (hn : w.length + 1 + s.length ≤ n)
    (hw1 : w ≠ []) (hw2 : ∀ c ∈ w, isSpaceCh c = false) :
    wordsF n (w ++ ' ' :: s) = w :: words s := by
  cases w with
  | nil => exact absurd rfl hw1
  | cons c w =>
    simp only [List.length_cons] at hn
    cases n with
    | zero => omega
    | succ n =>
      simp only [List.cons_append, wordsF]
      have hc : isSpaceCh c = false := hw2 c (List.mem_cons_self c w)
      rw [if_neg (by simp [hc])]
      have hwall : ∀ d ∈ w, (!isSpaceCh d) = true := by
        intro d hd
        simp [hw2 d (List.mem_cons_of_mem c hd)]
      have ht : (w ++ ' ' :: s).takeWhile (fun d => !isSpaceCh d) = w := by
        rw [takeWhile_append_of_all _ _ _ hwall, List.takeWhile_cons,
          if_neg (by decide), List.append_nil]
      have hd : (w ++ ' ' :: s).dropWhile (fun d => !isSpaceCh d) = ' ' :: s := by
        rw [dropWhile_append_of_all _ _ _ hwall, List.dropWhile_cons, if_neg (by decide)]
      simp only [List.append_eq]
      rw [ht, hd]
      congr 1
      cases n with
      | zero => omega
      | succ n =>
        simp only [wordsF, if_pos (show isSpaceCh ' ' = true by decide)]
        exact wordsF_fuel n s s.length (by omega) (Nat.le_refl _)

theorem words_append_space (w s : List Char) (hw1 : w ≠ [])
    (hw2 : ∀ c ∈ w, isSpaceCh c = false) :
    words (w ++ ' ' :: s) = w :: words s := by
  unfold words
  exact wordsF_append_space _ w s (by simp [List.length_append]; omega) hw1 hw2

theorem words_single (w : List Char) (hw1 : w ≠ []) (hw2 : ∀ c ∈ w, isSpaceCh c = false) :
    words w = [w] := by
  unfold words
  cases w with
  | nil => exact absurd rfl hw1
  | cons c w =>
    simp only [List.length_cons, wordsF]
    have hc : isSpaceCh c = false := hw2 c (List.mem_cons_self c w)
    rw [if_neg (by simp [hc])]
    have ht : w.takeWhile (fun d => !isSpaceCh d) = w :=
      List.takeWhile_eq_self_iff.mpr (fun d hd => by simp [hw2 d (List.mem_cons_of_mem c hd)])
    have hd : w.dropWhile (fun d => !isSpaceCh d) = [] :=
      List.dropWhile_eq_nil_iff.mpr (fun d hd => by simp [hw2 d (List.mem_cons_of_mem c hd)])
    rw [ht, hd]
    cases w <;> rfl

theorem words_unwords (ws : List (List Char))
    (h : ∀ w ∈ ws, w ≠ [] ∧ ∀ c ∈ w, isSpaceCh c = false) :
    words (unwords ws) = ws := by
  induction ws with
  | nil => rfl
  | cons w ws ih =>
    cases ws with
    | nil =>
      simp only [unwords]
      exact words_single w (h w (List.mem_cons_self _ _)).1 (h w (List.mem_cons_self _ _)).2
    | cons v vs =>
      simp only [unwords]
      rw [words_append_space w _ (h w (List.mem_cons_self _ _)).1
        (h w (List.mem_cons_self _ _)).2]
      congr 1
      exact ih (fun u hu => h u (List.mem_cons_of_mem w hu))

theorem mem_unwords {c : Char} :
    ∀ (ws : List (List Char)), c ∈ unwords ws → c = ' ' ∨ ∃ w ∈ ws, c ∈ w := by
  intro ws
  induction ws with
  | nil => intro h; simp [unwords] at h
  | cons w ws ih =>
    cases ws with
    | nil =>
      intro h
      exact Or.inr ⟨w, List.mem_cons_self _ _, by simpa [unwords] using h⟩
    | cons v vs =>
      intro h
      simp only [unwords] at h
      rcases List.mem_append.mp h with h1 | h2
      · exact Or.inr ⟨w, List.mem_cons_self _ _, h1⟩
      · rcases List.mem_cons.mp h2 with rfl | h3
        · exact Or.inl rfl
        · rcases ih h3 with h4 | ⟨u, hu, hcu⟩
          · exact Or.inl h4
          · exact Or.inr ⟨u, List.mem_cons_of_mem _ hu, hcu⟩

theorem map_id_of_mem {α : Type} (f : α → α) :
    ∀ (l : List α), (∀ c ∈ l, f c = c) → l.map f = l := by
  intro l
  induction l with
  | nil => intro _; rfl
  | cons a l ih =>
    intro h
    simp only [List.map_cons]
    rw [h a (List.mem_cons_self a l), ih (fun c hc => h c (List.mem_cons_of_mem a hc))]

/-! ### The image of the Text Normalizer -/

/-- The string state just before digit removal in `clean_dish_name`:
character removals followed by the five table replacements. -/
def stage9 (text : List Char) : List Char :=
  pyReplace "PCS".toList []
    (pyReplace "\\n".toList " ".toList
      (pyReplace " WIT ".toList " WITH ".toList
        (pyReplace "&".toList "AND".toList
          (pyReplace "W/".toList "WITH".toList
            (pyReplace ['@'] []
              (pyReplace ['.'] []
                (pyReplace [')'] []
                  (pyReplace ['('] [] text))))))))

theorem clean_dish_name_str_eq (text : List Char) :
    clean_dish_name_str text
      = unwords (words (((stage9 text).filter fun c => !isDigitCh c).map upChar)) := rfl

theorem mem_clean (s : List Char) (c : Char) (hc : c ∈ clean_dish_name_str s) :
    c = ' ' ∨ ∃ d, isDigitCh d = false ∧ c = upChar d ∧ d ∈ stage9 s := by
  rw [clean_dish_name_str_eq] at hc
  rcases mem_unwords _ hc with h | ⟨w, hw, hcw⟩
  · exact Or.inl h
  · obtain ⟨-, hcx⟩ := (wordsF_mem _ _ w (Nat.le_refl _) hw).2 c hcw
    rcases List.mem_map.mp hcx with ⟨d, hd, rfl⟩
    rcases List.mem_filter.mp hd with ⟨hd9, hdig⟩
    exact Or.inr ⟨d, by simpa using hdig, rfl, hd9⟩

theorem lparen_not_mem_stage9 (s : List Char) : '(' ∉ stage9 s := by
  unfold stage9
  refine not_mem_pyReplace_of _ _ _ _ ?_ (by decide)
  refine not_mem_pyReplace_of _ _ _ _ ?_ (by decide)
  refine not_mem_pyReplace_of _ _ _ _ ?_ (by decide)
  refine not_mem_pyReplace_of _ _ _ _ ?_ (by decide)
  refine not_mem_pyReplace_of _ _ _ _ ?_ (by decide)
  refine not_mem_pyReplace_of _ _ _ _ ?_ (by decide)
  refine not_mem_pyReplace_of _ _ _ _ ?_ (by decide)
  refine not_mem_pyReplace_of _ _ _ _ ?_ (by decide)
  exact not_mem_pyReplace_single '(' [] _ (by decide)

theorem rparen_not_mem_stage9 (s : List Char) : ')' ∉ stage9 s := by
  unfold stage9
  refine not_mem_pyReplace_of _ _ _ _ ?_ (by decide)
  refine not_mem_pyReplace_of _ _ _ _ ?_ (by decide)
  refine not_mem_pyReplace_of _ _ _ _ ?_ (by decide)
  refine not_mem_pyReplace_of _ _ _ _ ?_ (by decide)
  refine not_mem_pyReplace_of _ _ _ _ ?_ (by decide)
  refine not_mem_pyReplace_of _ _ _ _ ?_ (by decide)
  refine not_mem_pyReplace_of _ _ _ _ ?_ (by decide)
  exact not_mem_pyReplace_single ')' [] _ (by decide)

theorem dot_not_mem_stage9 (s : List Char) : '.' ∉ stage9 s := by
  unfold stage9
  refine not_mem_pyReplace_of _ _ _ _ ?_ (by decide)
  refine not_mem_pyReplace_of _ _ _ _ ?_ (by decide)
  refine not_mem_pyReplace_of _ _ _ _ ?_ (by decide)
  refine not_mem_pyReplace_of _ _ _ _ ?_ (by decide)
  refine not_mem_pyReplace_of _ _ _ _ ?_ (by decide)
  refine not_mem_pyReplace_of _ _ _ _ ?_ (by decide)
  exact not_mem_pyReplace_single '.' [] _ (by decide)

theorem at_not_mem_stage9 (s : List Char) : '@' ∉ stage9 s := by
  unfold stage9
  refine not_mem_pyReplace_of _ _ _ _ ?_ (by decide)
  refine not_mem_pyReplace_of _ _ _ _ ?_ (by decide)
  refine not_mem_pyReplace_of _ _ _ _ ?_ (by decide)
  refine not_mem_pyReplace_of _ _ _ _ ?_ (by decide)
  refine not_mem_pyReplace_of _ _ _ _ ?_ (by decide)
  exact not_mem_pyReplace_single '@' [] _ (by decide)

theorem amp_not_mem_stage9 (s : List Char) : '&' ∉ stage9 s := by
  unfold stage9
  refine not_mem_pyReplace_of _ _ _ _ ?_ (by decide)
  refine not_mem_pyReplace_of _ _ _ _ ?_ (by decide)
  refine not_mem_pyReplace_of _ _ _ _ ?_ (by decide)
  exact not_mem_pyReplace_single '&' "AND".toList _ (by decide)

theorem char_not_mem_clean (s : List Char) (x : Char)
    (hx1 : ¬(65 ≤ x.toNat ∧ x.toNat ≤ 90)) (hx2 : x ≠ ' ') (hx3 : x ∉ stage9 s) :
    x ∉ clean_dish_name_str s := by
  intro hmem
  rcases mem_clean s x hmem with h | ⟨d, -, hEq, hd9⟩
  · exact hx2 h
  · have hdx : d = x := eq_of_upChar_eq hx1 hEq.symm
    subst hdx
    exact hx3 hd9

theorem n_not_mem_clean (s : List Char) : 'n' ∉ clean_dish_name_str s := by
  intro hmem
  rcases mem_clean s 'n' hmem with h | ⟨d, -, hEq, -⟩
  · exact absurd h (by decide)
  · exact upChar_ne_n d hEq.symm

theorem not_digit_mem_clean (s : List Char) :
    ∀ c ∈ clean_dish_name_str s, (!isDigitCh c) = true := by
  intro c hc
  rcases mem_clean s c hc with rfl | ⟨d, hdig, rfl, -⟩
  · decide
  · cases hb : isDigitCh (upChar d) with
    | false => simp [hb]
    | true => exact absurd (isDigitCh_upChar hb) (by simp [hdig])

theorem upChar_fix_mem_clean (s : List Char) :
    ∀ c ∈ clean_dish_name_str s, upChar c = c := by
  intro c hc
  rcases mem_clean s c hc with rfl | ⟨d, -, rfl, -⟩
  · decide
  · exact upChar_upChar d

theorem unwords_words_unwords (x : List Char) :
    unwords (words (unwords (words x))) = unwords (words x) := by
  congr 1
  apply words_unwords
  intro w hw
  have h := wordsF_mem x.length x w (Nat.le_refl _) hw
  exact ⟨h.1, fun c hc => (h.2 c hc).1⟩

theorem unwords_words_clean (s : List Char) :
    unwords (words (clean_dish_name_str s)) = clean_dish_name_str s :=
  unwords_words_unwords (((stage9 s).filter fun c => !isDigitCh c).map upChar)

/-! ## Claims about the Text Normalizer -/

/-- C1 (amended): the Text Normalizer is not idempotent in general, but it
is idempotent on every string whose normalized form contains no occurrence
of the substrings `W/`, `' WIT '` or `PCS` (the three replacement triggers
that a first pass can itself create, e.g. by uppercasing).  All other
rewriting steps are always spent after one pass: the output contains no
`(`, `)`, `.`, `@`, `&`, digits, lowercase letters, or literal backslash-n,
and its whitespace is already collapsed. -/
theorem clean_dish_name_idempotent_of_stable (s : List Char)
    (h1 : ¬ "W/".toList <:+: clean_dish_name_str s)
    (h2 : ¬ " WIT ".toList <:+: clean_dish_name_str s)
    (h3 : ¬ "PCS".toList <:+: clean_dish_name_str s) :
    clean_dish_name_str (clean_dish_name_str s) = clean_dish_name_str s := by
  have e1 : pyReplace ['('] [] (clean_dish_name_str s) = clean_dish_name_str s :=
    pyReplace_of_not_infix _ _ _ (not_infix_of_not_mem (by decide)
      (char_not_mem_clean s '(' (by decide) (by decide) (lparen_not_mem_stage9 s)))
  have e2 : pyReplace [')'] [] (clean_dish_name_str s) = clean_dish_name_str s :=
    pyReplace_of_not_infix _ _ _ (not_infix_of_not_mem (by decide)
      (char_not_mem_clean s ')' (by decide) (by decide) (rparen_not_mem_stage9 s)))
  have e3 : pyReplace ['.'] [] (clean_dish_name_str s) = clean_dish_name_str s :=
    pyReplace_of_not_infix _ _ _ (not_infix_of_not_mem (by decide)
      (char_not_mem_clean s '.' (by decide) (by decide) (dot_not_mem_stage9 s)))
  have e4 : pyReplace ['@'] [] (clean_dish_name_str s) = clean_dish_name_str s :=
    pyReplace_of_not_infix _ _ _ (not_infix_of_not_mem (by decide)
      (char_not_mem_clean s '@' (by decide) (by decide) (at_not_mem_stage9 s)))
  have e5 : pyReplace "W/".toList "WITH".toList (clean_dish_name_str s)
      = clean_dish_name_str s := pyReplace_of_not_infix _ _ _ h1
  have e6 : pyReplace "&".toList "AND".toList (clean_dish_name_str s)
      = clean_dish_name_str s :=
    pyReplace_of_not_infix _ _ _ (not_infix_of_not_mem (by decide)
      (char_not_mem_clean s '&' (by decide) (by decide) (amp_not_mem_stage9 s)))
  have e7 : pyReplace " WIT ".toList " WITH ".toList (clean_dish_name_str s)
      = clean_dish_name_str s := pyReplace_of_not_infix _ _ _ h2
  have e8 : pyReplace "\\n".toList " ".toList (clean_dish_name_str s)
      = clean_dish_name_str s :=
    pyReplace_of_not_infix _ _ _ (not_infix_of_not_mem (by decide) (n_not_mem_clean s))
  have e9 : pyReplace "PCS".toList [] (clean_dish_name_str s)
      = clean_dish_name_str s := pyReplace_of_not_infix _ _ _ h3
  rw [clean_dish_name_str_eq (clean_dish_name_str s)]
  unfold stage9
  rw [e1, e2, e3, e4, e5, e6, e7, e8, e9]
  rw [List.filter_eq_self.mpr (not_digit_mem_clean s)]
  rw [map_id_of_mem upChar _ (upChar_fix_mem_clean s)]
  exact unwords_words_clean s

/-- C1 counterexample: idempotence fails as stated.  For `s = "w/"` the
first pass only uppercases (producing `"W/"`), and the second pass then
fires the `W/ → WITH` replacement, so
`clean_dish_name(clean_dish_name("w/")) = "WITH" ≠ "W/" = clean_dish_name("w/")`. -/
theorem clean_dish_name_not_idempotent :
    clean_dish_name_str (clean_dish_name_str "w/".toList)
      ≠ clean_dish_name_str "w/".toList := by decide

/-- Witness for C1 (amended) at the concrete input `"hello"`. -/
theorem clean_dish_name_idempotent_of_stable_witness :
    (¬ "W/".toList <:+: clean_dish_name_str "hello".toList)
    ∧ (¬ " WIT ".toList <:+: clean_dish_name_str "hello".toList)
    ∧ (¬ "PCS".toList <:+: clean_dish_name_str "hello".toList)
    ∧ clean_dish_name_str (clean_dish_name_str "hello".toList)
        = clean_dish_name_str "hello".toList :=
  ⟨by decide, by decide, by decide,
    clean_dish_name_idempotent_of_stable _ (by decide) (by decide) (by decide)⟩

/-! ## A column-major model of pandas DataFrames

A `Frame` is the list of its columns in order, each a name paired with its
cell list; a missing value (`NaN`/`NaT`) is `none`.  This matches pandas'
column-oriented storage.  `V` is the type of non-null cell values; the
pandas parsers `pd.to_datetime(·, errors='coerce')` and `.dt.date`, and
the dish normalizer applied through `Series.apply`, are taken as function
parameters of type `Option V → Option V` (an `apply`/parse sees the cell
including `NaN`), since no claim depends on their value-level behaviour. -/

structure Frame (V : Type) where
  cols : List (String × List (Option V))
deriving DecidableEq

namespace Frame

variable {V : Type} [DecidableEq V]

/-- Column lookup by name, `none` when the label is absent. -/
def col? (df : Frame V) (n : String) : Option (List (Option V)) :=
  (df.cols.find? (fun c => c.1 == n)).map Prod.snd

/-- Number of rows: the length of the first column (0 for a frame with no
columns), as in a rectangular pandas frame. -/
def nrows (df : Frame V) : Nat :=
  match df.cols with
  | [] => 0
  | c :: _ => c.2.length

/-- pandas `DataFrame.empty`: no columns or no rows. -/
def empty (df : Frame V) : Bool := df.cols.isEmpty || df.nrows == 0

/-- Rectangularity: every column has length `n` (always true of a real
pandas frame). -/
def rect (df : Frame V) (n : Nat) : Prop := ∀ c ∈ df.cols, c.2.length = n

end Frame

/-- `Series.ffill` from a running last-seen value: `none` cells take the
most recent value seen so far. -/
def ffillFrom {V : Type} (last : Option V) : List (Option V) → List (Option V)
  | [] => []
  | none :: xs => last :: ffillFrom last xs
  | some v :: xs => some v :: ffillFrom (some v) xs

/-- pandas `Series.ffill`: forward-fill a single column top to bottom. -/
def ffill {V : Type} (col : List (Option V)) : List (Option V) := ffillFrom none col

/-- The most recent non-blank value of `xs`, or `dflt` if there is none:
the reference semantics of forward filling. -/
def mostRecent {V : Type} (dflt : Option V) (xs : List (Option V)) : Option V :=
  xs.foldl (fun acc x => match x with | some v => some v | none => acc) dflt

/-- `df[names] = df[names].ffill()`: forward-fill the named columns in
place, raising `KeyError` (as pandas label-list indexing does) when any of
the names is absent. -/
def fillForward {V : Type} [DecidableEq V] (names : List String) (df : Frame V) :
    Except String (Frame V) :=
  if names.all (fun n => (df.col? n).isSome) then
    .ok ⟨df.cols.map (fun c => (c.1, if c.1 ∈ names then ffill c.2 else c.2))⟩
  else .error "KeyError"

/-- `df.drop(columns=names, errors='ignore')`: total, silently tolerating
absent labels. -/
def dropCols {V : Type} (names : List String) (df : Frame V) : Frame V :=
  ⟨df.cols.filter (fun c => decide (c.1 ∉ names))⟩

/-- `df.insert(pos, n, data)`: pandas raises `ValueError` when the column
already exists. -/
def insertCol {V : Type} [DecidableEq V] (pos : Nat) (n : String)
    (data : List (Option V)) (df : Frame V) : Except String (Frame V) :=
  if (df.col? n).isSome then .error "ValueError"
  else .ok ⟨df.cols.insertIdx pos (n, data)⟩

/-- `df[n] = data` for an existing column label `n`: overwrite its data. -/
def setCol {V : Type} (n : String) (data : List (Option V)) (df : Frame V) : Frame V :=
  ⟨df.cols.map (fun c => (c.1, if c.1 == n then data else c.2))⟩

/-- Keep-mask of first occurrences: entry `i` is true iff key `i` has not
appeared before (`seen` carries the keys of the already-scanned prefix). -/
def firstOccMask {κ : Type} [DecidableEq κ] : List κ → List κ → List Bool
  | _, [] => []
  | seen, k :: ks => (!decide (k ∈ seen)) :: firstOccMask (k :: seen) ks

/-- Keep exactly the entries whose mask bit is true. -/
def maskFilter {α : Type} : List Bool → List α → List α
  | b :: bs, x :: xs => if b then x :: maskFilter bs xs else maskFilter bs xs
  | _, _ => []

/-- `df.drop_duplicates(key)`: keep, for each distinct value of the key
column, the first row carrying it; `KeyError` when the key column is
absent.  pandas treats `NaN` keys as equal for this purpose, which the
`Option V` equality reproduces. -/
def drop_duplicates {V : Type} [DecidableEq V] (key : String) (df : Frame V) :
    Except String (Frame V) :=
  match df.col? key with
  | none => .error "KeyError"
  | some keys =>
    .ok ⟨df.cols.map (fun c => (c.1, maskFilter (firstOccMask [] keys) c.2))⟩

/-- Helper of `selectCols`: collect the named columns left to right,
stopping with `KeyError` at the first absent label. -/
def selectLoop {V : Type} [DecidableEq V] (df : Frame V) :
    List String → Except String (List (String × List (Option V)))
  | [] => .ok []
  | n :: ns =>
    match df.col? n with
    | some d => (selectLoop df ns).map (fun r => (n, d) :: r)
    | none => .error "KeyError"

/-- `df[names]`: project the named columns in order; `KeyError` on the
first absent label. -/
def selectCols {V : Type} [DecidableEq V] (names : List String) (df : Frame V) :
    Except String (Frame V) :=
  (selectLoop df names).map (fun cs => ⟨cs⟩)

/-! ## The Reconciliation and Derivation Engine -/

def fields_to_fill : List String := ["Date", "POS Name", "Cashier Name", "Transaction No"]

def dish_columns : List String :=
  ["OR No", "DateTime", "Date", "POS Name", "Cashier Name", "Transaction No",
    "Dishes", "Dish Quantities"]

/-- Steps 1–4 of `process_report` (the in-place mutations of `df`):
forward-fill the four header fields, drop `No data found` if present,
insert the derived `DateTime` column at position 1 and overwrite `Date`
with the re-parsed calendar date (both computed from the forward-filled
`Date` column, which line 80 of the source still sees unmodified), and
normalize `Dishes` when that column exists. -/
def reconcile {V : Type} [DecidableEq V] (dtParse dateParse normDish : Option V → Option V)
    (df : Frame V) : Except String (Frame V) :=
  match fillForward fields_to_fill df with
  | .error e => .error e
  | .ok df1 =>
    let df2 := dropCols ["No data found"] df1
    match df2.col? "Date" with
    | none => .error "KeyError"
    | some dateData =>
      match insertCol 1 "DateTime" (dateData.map dtParse) df2 with
      | .error e => .error e
      | .ok df3 =>
        let df4 := setCol "Date" (dateData.map dateParse) df3
        match df4.col? "Dishes" with
        | some d => .ok (setCol "Dishes" (d.map normDish) df4)
        | none => .ok df4

/-- `process_report`: returns (Reconciled Table, Transaction View, Item
View).  The Transaction View deduplicates by `OR No` (first occurrence
wins) and then drops `Dishes`/`Dish Quantities` with `errors='ignore'`;
the Item View projects the eight `dish_columns`. -/
def process_report {V : Type} [DecidableEq V] (dtParse dateParse normDish : Option V → Option V)
    (df : Frame V) : Except String (Frame V × Frame V × Frame V) :=
  match reconcile dtParse dateParse normDish df with
  | .error e => .error e
  | .ok dfr =>
    match drop_duplicates "OR No" dfr with
    | .error e => .error e
    | .ok dft =>
      let df_transactions := dropCols ["Dishes", "Dish Quantities"] dft
      match selectCols dish_columns dfr with
      | .error e => .error e
      | .ok df_dishes => .ok (dfr, df_transactions, df_dishes)

/-! ## The File Ingestor and the driver -/

/-- The exception class raised by one `pd.read_csv` attempt, as far as the
`except` clauses distinguish them. -/
inductive ExnKind where
  | unicodeDecodeError
  | otherError
deriving DecidableEq

/-- Outcome of one `pd.read_csv` call: a parsed frame or a raised
exception with its kind and message. -/
inductive PyResult (V : Type) where
  | ok (df : Frame V)
  | exn (kind : ExnKind) (msg : String)
deriving DecidableEq

/-- One `.xls` file of the input folder, abstracted by the outcomes of the
two possible `pd.read_csv` calls on it (GBK first, UTF-8 on retry). -/
structure SourceFile (V : Type) where
  name : String
  gbk : PyResult V
  utf8 : PyResult V
deriving DecidableEq

/-- Net outcome of the `try/except` block of `merge_files` on one file:
`parsed` (appended), `caught` (logged and skipped by the
`except Exception` clause), or `raised` — a failure inside the
`except UnicodeDecodeError` handler, which no clause of the same `try`
statement catches, so it propagates. -/
inductive ReadOutcome (V : Type) where
  | parsed (df : Frame V)
  | caught (log : String)
  | raised (msg : String)
deriving DecidableEq

def errLine (name msg : String) : String :=
  "[ERROR] Could not read " ++ name ++ ": " ++ msg

def readFile {V : Type} (f : SourceFile V) : ReadOutcome V :=
  match f.gbk with
  | .ok df => .parsed df
  | .exn .unicodeDecodeError _ =>
    match f.utf8 with
    | .ok df => .parsed df
    | .exn _ msg => .raised msg
  | .exn .otherError msg => .caught (errLine f.name msg)

/-- The `for file in folder.glob('*.xls')` loop: collected log lines and
the `all_dfs` accumulator, or the first uncaught exception. -/
def mergeLoop {V : Type} : List (SourceFile V) → Except String (List String × List (Frame V))
  | [] => .ok ([], [])
  | f :: fs =>
    match readFile f with
    | .parsed df => (mergeLoop fs).map (fun r => (r.1, df :: r.2))
    | .caught l => (mergeLoop fs).map (fun r => (l :: r.1, r.2))
    | .raised msg => .error msg

/-- Keep the first occurrence of each name, in order of appearance. -/
def firstDedup : List String → List String
  | [] => []
  | x :: xs => x :: (firstDedup xs).filter (fun y => y ≠ x)

/-- `pd.concat(dfs, ignore_index=True)`: columns are the union of the
inputs' columns in order of first appearance; a frame lacking a column
contributes a block of blanks of its own height. -/
def concatFrames {V : Type} [DecidableEq V] (dfs : List (Frame V)) : Frame V :=
  let names := firstDedup (dfs.flatMap (fun df => df.cols.map Prod.fst))
  ⟨names.map (fun n =>
    (n, dfs.flatMap (fun df => (df.col? n).getD (List.replicate df.nrows none))))⟩

/-- `merge_files`: run the per-file loop, then
`pd.concat(all_dfs, ignore_index=True) if all_dfs else pd.DataFrame()`.
The returned log list models the `print` calls of the loop. -/
def merge_files {V : Type} [DecidableEq V] (files : List (SourceFile V)) :
    Except String (List String × Frame V) :=
  match mergeLoop files with
  | .error m => .error m
  | .ok (logs, dfs) => .ok (logs, if dfs.isEmpty then ⟨[]⟩ else concatFrames dfs)

/-- Result of one run of `main` on a valid folder (the folder-existence
check is peripheral glue and elided): early warning exit, a completed run
that writes the workbook from the three views, or an uncaught exception
aborting the run. -/
inductive RunResult (V : Type) where
  | noData (warning : String)
  | completed (report transactions dishes : Frame V)
  | uncaught (msg : String)
deriving DecidableEq

/-- The body of the source's `main` after folder validation: merge, the
`df_raw.empty` early exit with its warning, then `process_report` and
export.  (Named `mainRun` because Lean reserves `main` for entry points.) -/
def mainRun {V : Type} [DecidableEq V] (dtParse dateParse normDish : Option V → Option V)
    (files : List (SourceFile V)) : RunResult V :=
  match merge_files files with
  | .error msg => .uncaught msg
  | .ok (_, df_raw) =>
    if df_raw.empty then
      .noData "[WARNING] No valid .xls files found or all files failed to load."
    else
      match process_report dtParse dateParse normDish df_raw with
      | .error msg => .uncaught msg
      | .ok (r, t, d) => .completed r t d

/-! ### Column-lookup lemmas for the frame operations -/

theorem col?_map {V : Type} (cols : List (String × List (Option V)))
    (f : String → List (Option V) → List (Option V)) (n : String) :
    Frame.col? ⟨cols.map (fun c => (c.1, f c.1 c.2))⟩ n
      = (Frame.col? ⟨cols⟩ n).map (f n) := by
  induction cols with
  | nil => rfl
  | cons c cs ih =>
    by_cases h : (c.1 == n) = true
    · have hc : c.1 = n := by simpa using h
      simp only [List.map_cons, Frame.col?, List.find?_cons, hc]
      simp
    · have hb : (c.1 == n) = false := by simpa using h
      simp only [List.map_cons, Frame.col?, List.find?_cons, hb]
      exact ih

theorem col?_filter {V : Type} (cols : List (String × List (Option V)))
    (q : String → Bool) (n : String) :
    Frame.col? ⟨cols.filter (fun c => q c.1)⟩ n
      = (if q n then Frame.col? ⟨cols⟩ n else none) := by
  induction cols with
  | nil => simp [Frame.col?]
  | cons c cs ih =>
    by_cases h : (c.1 == n) = true
    · have hc : c.1 = n := by simpa using h
      subst hc
      by_cases hq : q c.1 = true
      · simp only [List.filter_cons, hq, if_true, Frame.col?, List.find?_cons, h]
      · have hq2 : q c.1 = false := by simpa using hq
        simp only [List.filter_cons, hq2, if_false, hq]
        exact ih.trans (by simp [hq2])
    · have hb : (c.1 == n) = false := by simpa using h
      by_cases hq : q c.1 = true
      · simp only [List.filter_cons, hq, if_true, Frame.col?, List.find?_cons, hb]
        exact ih
      · have hq2 : q c.1 = false := by simpa using hq
        simp only [List.filter_cons, hq2, if_false]
        refine ih.trans ?_
        simp only [Frame.col?, List.find?_cons, hb]

theorem length_ffillFrom {V : Type} (last : Option V) (col : List (Option V)) :
    (ffillFrom last col).length = col.length := by
  induction col generalizing last with
  | nil => rfl
  | cons x xs ih =>
    cases x with
    | none => simp only [ffillFrom, List.length_cons, ih]
    | some v => simp only [ffillFrom, List.length_cons, ih]

theorem length_ffill {V : Type} (col : List (Option V)) : (ffill col).length = col.length :=
  length_ffillFrom none col

/-- Pointwise semantics of forward fill: entry `i` of the filled column is
the most recent non-blank value among the first `i + 1` entries, or the
carried default (blank for `ffill`) when there is none. -/
theorem ffillFrom_getD {V : Type} :
    ∀ (col : List (Option V)) (last : Option V) (i : Nat), i < col.length →
      (ffillFrom last col).getD i none = mostRecent last (col.take (i + 1)) := by
  intro col
  induction col with
  | nil => intro last i h; simp at h
  | cons x xs ih =>
    intro last i h
    cases x with
    | none =>
      cases i with
      | zero => rfl
      | succ i =>
        simp only [ffillFrom, List.getD_cons_succ, List.take_succ_cons]
        have hm : mostRecent last (none :: xs.take (i + 1)) = mostRecent last (xs.take (i + 1)) := rfl
        rw [hm]
        exact ih last i (by simpa using h)
    | some v =>
      cases i with
      | zero => rfl
      | succ i =>
        simp only [ffillFrom, List.getD_cons_succ, List.take_succ_cons]
        have hm : mostRecent last (some v :: xs.take (i + 1))
            = mostRecent (some v) (xs.take (i + 1)) := rfl
        rw [hm]
        exact ih (some v) i (by simpa using h)

theorem ffill_getD {V : Type} (col : List (Option V)) (i : Nat) (h : i < col.length) :
    (ffill col).getD i none = mostRecent none (col.take (i + 1)) :=
  ffillFrom_getD col none i h

/-! ### Specifications of the frame operations -/

theorem fillForward_ok_iff {V : Type} [DecidableEq V] (names : List String) (df : Frame V) :
    (∃ df1, fillForward names df = .ok df1)
      ↔ ∀ n ∈ names, (df.col? n).isSome = true := by
  unfold fillForward
  by_cases h : names.all (fun n => (df.col? n).isSome) = true
  · simp only [if_pos h]
    exact ⟨fun _ => List.all_eq_true.mp h, fun _ => ⟨_, rfl⟩⟩
  · simp only [if_neg h]
    constructor
    · rintro ⟨df1, hdf⟩; exact absurd hdf (by simp)
    · intro hall; exact absurd (List.all_eq_true.mpr hall) h

theorem fillForward_error {V : Type} [DecidableEq V] (names : List String) (df : Frame V)
    (h : ∃ n ∈ names, df.col? n = none) : fillForward names df = .error "KeyError" := by
  unfold fillForward
  rw [if_neg]
  intro hall
  obtain ⟨n, hn, hnone⟩ := h
  have := List.all_eq_true.mp hall n hn
  rw [hnone] at this
  simp at this

theorem fillForward_col {V : Type} [DecidableEq V] (names : List String) (df df1 : Frame V)
    (h : fillForward names df = .ok df1) (n : String) :
    df1.col? n = (df.col? n).map (fun d => if n ∈ names then ffill d else d) := by
  unfold fillForward at h
  by_cases hall : names.all (fun n => (df.col? n).isSome) = true
  · rw [if_pos hall] at h
    have hdf : df1 = ⟨df.cols.map (fun c => (c.1, if c.1 ∈ names then ffill c.2 else c.2))⟩ := by
      cases h; rfl
    subst hdf
    exact col?_map df.cols (fun a b => if a ∈ names then ffill b else b) n
  · rw [if_neg hall] at h
    cases h

theorem dropCols_col {V : Type} (names : List String) (df : Frame V) (n : String) :
    (dropCols names df).col? n = (if n ∈ names then none else df.col? n) := by
  unfold dropCols
  rw [col?_filter df.cols (fun a => decide (a ∉ names)) n]
  by_cases h : n ∈ names
  · simp [h]
  · simp [h]

theorem setCol_col {V : Type} (m : String) (data : List (Option V)) (df : Frame V) (n : String) :
    (setCol m data df).col? n = (df.col? n).map (fun d => if n == m then data else d) :=
  col?_map df.cols (fun a b => if a == m then data else b) n

theorem setCol_col_ne {V : Type} (m : String) (data : List (Option V)) (df : Frame V)
    (n : String) (h : n ≠ m) : (setCol m data df).col? n = df.col? n := by
  rw [setCol_col]
  have hb : (n == m) = false := by simpa using h
  simp [hb]

theorem col?_insertIdx1_ne {V : Type} (cols : List (String × List (Option V)))
    (x : String × List (Option V)) (n : String) (h : x.1 ≠ n) :
    Frame.col? ⟨cols.insertIdx 1 x⟩ n = Frame.col? ⟨cols⟩ n := by
  have hb : (x.1 == n) = false := by simpa using h
  cases cols with
  | nil => rfl
  | cons c cs =>
    show Frame.col? ⟨c :: x :: cs⟩ n = Frame.col? ⟨c :: cs⟩ n
    by_cases hc : (c.1 == n) = true
    · simp only [Frame.col?, List.find?_cons, hc]
    · have hcb : (c.1 == n) = false := by simpa using hc
      simp only [Frame.col?, List.find?_cons, hcb, hb]

theorem col?_insertIdx1_self {V : Type} (cols : List (String × List (Option V)))
    (m : String) (data : List (Option V)) (hne : cols ≠ [])
    (habs : Frame.col? ⟨cols⟩ m = none) :
    Frame.col? ⟨cols.insertIdx 1 (m, data)⟩ m = some data := by
  cases cols with
  | nil => exact absurd rfl hne
  | cons c cs =>
    have hcb : (c.1 == m) = false := by
      by_contra hx
      have hc : (c.1 == m) = true := by simpa using hx
      simp [Frame.col?, List.find?_cons, hc] at habs
    show Frame.col? ⟨c :: (m, data) :: cs⟩ m = some data
    simp [Frame.col?, List.find?_cons, hcb]

theorem insertCol_ok_col {V : Type} [DecidableEq V] (pos : Nat) (m : String)
    (data : List (Option V)) (df df1 : Frame V)
    (h : insertCol pos m data df = .ok df1) :
    df1 = ⟨df.cols.insertIdx pos (m, data)⟩ ∧ df.col? m = none := by
  unfold insertCol at h
  by_cases hs : (df.col? m).isSome = true
  · rw [if_pos hs] at h; cases h
  · rw [if_neg hs] at h
    cases h
    refine ⟨rfl, ?_⟩
    cases hx : df.col? m
    · rfl
    · rw [hx] at hs; simp at hs

theorem drop_duplicates_ok {V : Type} [DecidableEq V] (key : String) (df df1 : Frame V)
    (h : drop_duplicates key df = .ok df1) :
    ∃ keys, df.col? key = some keys ∧
      df1 = ⟨df.cols.map (fun c => (c.1, maskFilter (firstOccMask [] keys) c.2))⟩ := by
  unfold drop_duplicates at h
  cases hk : df.col? key with
  | none => rw [hk] at h; cases h
  | some keys =>
    rw [hk] at h
    cases h
    exact ⟨keys, rfl, rfl⟩

theorem drop_duplicates_error {V : Type} [DecidableEq V] (key : String) (df : Frame V)
    (h : df.col? key = none) : drop_duplicates key df = .error "KeyError" := by
  unfold drop_duplicates
  rw [h]

theorem selectLoop_error {V : Type} [DecidableEq V] (df : Frame V) :
    ∀ (names : List String), (∃ n ∈ names, df.col? n = none) →
      selectLoop df names = .error "KeyError" := by
  intro names
  induction names with
  | nil => rintro ⟨n, hn, -⟩; simp at hn
  | cons m ms ih =>
    rintro ⟨n, hn, hnone⟩
    rcases List.mem_cons.mp hn with rfl | hn2
    · simp only [selectLoop, hnone]
    · cases hm : df.col? m with
      | none => simp only [selectLoop, hm]
      | some d =>
        simp only [selectLoop, hm, ih ⟨n, hn2, hnone⟩]
        rfl

theorem selectLoop_ok {V : Type} [DecidableEq V] (df : Frame V) :
    ∀ (names : List String) (out : List (String × List (Option V))),
      selectLoop df names = .ok out →
      out = names.map (fun n => (n, (df.col? n).getD [])) ∧
        ∀ n ∈ names, (df.col? n).isSome = true := by
  intro names
  induction names with
  | nil =>
    intro out h
    cases h
    exact ⟨rfl, by simp⟩
  | cons m ms ih =>
    intro out h
    cases hm : df.col? m with
    | none => rw [selectLoop, hm] at h; cases h
    | some d =>
      rw [selectLoop, hm] at h
      cases hl : selectLoop df ms with
      | error e => rw [hl] at h; cases h
      | ok r =>
        rw [hl] at h
        cases h
        obtain ⟨hr, hall⟩ := ih r hl
        constructor
        · simp only [List.map_cons, hm]
          rw [← hr]
          rfl
        · intro n hn
          rcases List.mem_cons.mp hn with rfl | hn2
          · simp [hm]
          · exact hall n hn2

theorem selectCols_error {V : Type} [DecidableEq V] (names : List String) (df : Frame V)
    (h : ∃ n ∈ names, df.col? n = none) : selectCols names df = .error "KeyError" := by
  unfold selectCols
  rw [selectLoop_error df names h]
  rfl

theorem selectCols_ok {V : Type} [DecidableEq V] (names : List String) (df df1 : Frame V)
    (h : selectCols names df = .ok df1) :
    df1.cols = names.map (fun n => (n, (df.col? n).getD []))
      ∧ ∀ n ∈ names, (df.col? n).isSome = true := by
  unfold selectCols at h
  cases hl : selectLoop df names with
  | error e => rw [hl] at h; cases h
  | ok out =>
    rw [hl] at h
    cases h
    obtain ⟨ho, hall⟩ := selectLoop_ok df names out hl
    exact ⟨ho, hall⟩

theorem cols_ne_nil_of_col {V : Type} (df : Frame V) (n : String) (d : List (Option V))
    (h : df.col? n = some d) : df.cols ≠ [] := by
  intro hnil
  rw [show df = ⟨df.cols⟩ from rfl, hnil] at h
  cases h

/-- How `reconcile` transforms each column: the `Date` column that existed
before the run is forward-filled, a `DateTime` column derived from it by
`dtParse` is inserted, `Date` is overwritten by its `dateParse` image, and
every column other than `Date`, `DateTime`, `Dishes` and `No data found`
is forward-filled when it is one of the four header fields and untouched
otherwise. -/
theorem reconcile_col {V : Type} [DecidableEq V]
    (dtParse dateParse normDish : Option V → Option V) (df dfr : Frame V)
    (h : reconcile dtParse dateParse normDish df = .ok dfr) :
    ∃ dateData, df.col? "Date" = some dateData ∧
      dfr.col? "DateTime" = some ((ffill dateData).map dtParse) ∧
      dfr.col? "Date" = some ((ffill dateData).map dateParse) ∧
      (∀ n : String, n ≠ "Date" → n ≠ "DateTime" → n ≠ "Dishes" → n ≠ "No data found" →
        dfr.col? n = (df.col? n).map (fun d => if n ∈ fields_to_fill then ffill d else d)) := by
  unfold reconcile at h
  cases hf : fillForward fields_to_fill df with
  | error e => rw [hf] at h; cases h
  | ok df1 =>
    rw [hf] at h
    simp only at h
    cases hd : (dropCols ["No data found"] df1).col? "Date" with
    | none => rw [hd] at h; cases h
    | some dateData =>
      rw [hd] at h
      simp only at h
      cases hi : insertCol 1 "DateTime" (dateData.map dtParse) (dropCols ["No data found"] df1) with
      | error e => rw [hi] at h; cases h
      | ok df3 =>
        rw [hi] at h
        simp only at h
        -- facts about the early stages
        have f1 : ∀ n : String,
            df1.col? n = (df.col? n).map (fun d => if n ∈ fields_to_fill then ffill d else d) :=
          fillForward_col _ _ _ hf
        have f2 : ∀ n : String, n ≠ "No data found" →
            (dropCols ["No data found"] df1).col? n = df1.col? n := by
          intro n hn
          rw [dropCols_col, if_neg (by simpa using hn)]
        have hdate0 : (dropCols ["No data found"] df1).col? "Date"
            = (df.col? "Date").map ffill := by
          rw [f2 "Date" (by decide), f1 "Date"]
          cases df.col? "Date" with
          | none => rfl
          | some d0 => simp [fields_to_fill]
        obtain ⟨dd0, hdd0⟩ : ∃ dd0, df.col? "Date" = some dd0 := by
          rw [hdate0] at hd
          cases hx : df.col? "Date" with
          | none => rw [hx] at hd; cases hd
          | some d0 => exact ⟨d0, rfl⟩
        have hdateData : dateData = ffill dd0 := by
          rw [hdate0, hdd0] at hd
          exact (Option.some_inj.mp hd).symm
        obtain ⟨hdf3, hdtnone⟩ := insertCol_ok_col _ _ _ _ _ hi
        have hne2 : (dropCols ["No data found"] df1).cols ≠ [] :=
          cols_ne_nil_of_col _ "Date" dateData hd
        -- columns of df3
        have g1 : df3.col? "DateTime" = some (dateData.map dtParse) := by
          rw [hdf3]
          exact col?_insertIdx1_self _ _ _ hne2 hdtnone
        have g2 : ∀ n : String, n ≠ "DateTime" →
            df3.col? n = (dropCols ["No data found"] df1).col? n := by
          intro n hn
          rw [hdf3]
          exact col?_insertIdx1_ne _ _ _ (fun hx => hn hx.symm)
        -- columns of df4
        have g3 : (setCol "Date" (dateData.map dateParse) df3).col? "Date"
            = some (dateData.map dateParse) := by
          rw [setCol_col]
          have : df3.col? "Date" = some dateData := by
            rw [g2 "Date" (by decide)]
            exact hd
          rw [this]
          simp
        have g4 : ∀ n : String, n ≠ "Date" →
            (setCol "Date" (dateData.map dateParse) df3).col? n = df3.col? n := by
          intro n hn
          exact setCol_col_ne _ _ _ _ hn
        -- the optional Dishes normalization step
        cases hdish : (setCol "Date" (dateData.map dateParse) df3).col? "Dishes" with
        | some d =>
          rw [hdish] at h
          cases h
          refine ⟨dd0, hdd0, ?_, ?_, ?_⟩
          · rw [setCol_col_ne _ _ _ _ (by decide), g4 "DateTime" (by decide), g1, hdateData]
          · rw [setCol_col_ne _ _ _ _ (by decide), g3, hdateData]
          · intro n hn1 hn2 hn3 hn4
            rw [setCol_col_ne _ _ _ _ hn3, g4 n hn1, g2 n hn2, f2 n hn4, f1 n]
        | none =>
          rw [hdish] at h
          cases h
          refine ⟨dd0, hdd0, ?_, ?_, ?_⟩
          · rw [g4 "DateTime" (by decide), g1, hdateData]
          · rw [g3, hdateData]
          · intro n hn1 hn2 hn3 hn4
            rw [g4 n hn1, g2 n hn2, f2 n hn4, f1 n]

theorem process_report_ok {V : Type} [DecidableEq V]
    (dtParse dateParse normDish : Option V → Option V) (df dfr tx di : Frame V)
    (h : process_report dtParse dateParse normDish df = .ok (dfr, tx, di)) :
    reconcile dtParse dateParse normDish df = .ok dfr
      ∧ (∃ dft, drop_duplicates "OR No" dfr = .ok dft
          ∧ tx = dropCols ["Dishes", "Dish Quantities"] dft)
      ∧ selectCols dish_columns dfr = .ok di := by
  unfold process_report at h
  cases hr : reconcile dtParse dateParse normDish df with
  | error e => rw [hr] at h; cases h
  | ok dfr0 =>
    rw [hr] at h
    simp only at h
    cases hd : drop_duplicates "OR No" dfr0 with
    | error e => rw [hd] at h; cases h
    | ok dft0 =>
      rw [hd] at h
      simp only at h
      cases hs : selectCols dish_columns dfr0 with
      | error e => rw [hs] at h; cases h
      | ok di0 =>
        rw [hs] at h
        cases h
        exact ⟨rfl, ⟨dft0, hd, rfl⟩, hs⟩

/-! ## Claim C5: forward fill of the header columns -/

/-- C5 (amended): in the Reconciled Table returned by `process_report`,
the header columns `POS Name`, `Cashier Name` and `Transaction No` are
exactly the forward-filled input columns; the `Date` column is the
forward-filled input `Date` column subsequently re-parsed value by value
by the calendar-date parser (so a filled value whose parse fails becomes
blank again).  Forward fill itself takes, at each row, the most recent
preceding non-blank value of the same column, and rows before the first
non-blank value stay blank. -/
theorem process_report_forward_fill {V : Type} [DecidableEq V]
    (dtParse dateParse normDish : Option V → Option V) (df dfr tx di : Frame V)
    (h : process_report dtParse dateParse normDish df = .ok (dfr, tx, di)) :
    dfr.col? "POS Name" = (df.col? "POS Name").map ffill
      ∧ dfr.col? "Cashier Name" = (df.col? "Cashier Name").map ffill
      ∧ dfr.col? "Transaction No" = (df.col? "Transaction No").map ffill
      ∧ (∃ dateData, df.col? "Date" = some dateData
          ∧ dfr.col? "Date" = some ((ffill dateData).map dateParse))
      ∧ (∀ (col : List (Option V)) (i : Nat), i < col.length →
          (ffill col).getD i none = mostRecent none (col.take (i + 1))) := by
  obtain ⟨hrec, -, -⟩ := process_report_ok _ _ _ _ _ _ _ h
  obtain ⟨dd, hdd, -, hdate, hrest⟩ := reconcile_col _ _ _ _ _ hrec
  refine ⟨?_, ?_, ?_, ⟨dd, hdd, hdate⟩, fun col i hi => ffill_getD col i hi⟩
  · rw [hrest "POS Name" (by decide) (by decide) (by decide) (by decide)]
    cases df.col? "POS Name" <;> simp [fields_to_fill]
  · rw [hrest "Cashier Name" (by decide) (by decide) (by decide) (by decide)]
    cases df.col? "Cashier Name" <;> simp [fields_to_fill]
  · rw [hrest "Transaction No" (by decide) (by decide) (by decide) (by decide)]
    cases df.col? "Transaction No" <;> simp [fields_to_fill]

/-- Concrete input for C5: a two-row frame whose `Date` value is a
non-date string. -/
def dfC5 : Frame String := ⟨[
  ("Date", [some "hello", none]),
  ("POS Name", [some "P1", none]),
  ("Cashier Name", [some "C1", none]),
  ("Transaction No", [some "T1", none]),
  ("OR No", [some "1", some "2"]),
  ("Dishes", [some "d", some "e"]),
  ("Dish Quantities", [some "1", some "1"])]⟩

/-- `pd.to_datetime(·, errors='coerce')` (and its `.dt.date` projection)
restricted to the values appearing in `dfC5`: `NaN` and the non-date
strings of that frame all coerce to `NaT`, i.e. to `none`. -/
def coerceNone : Option String → Option String := fun _ => none

def recC5 : Frame String :=
  match process_report coerceNone coerceNone (fun c => c) dfC5 with
  | .ok (r, _, _) => r
  | .error _ => ⟨[]⟩

def txC5 : Frame String :=
  match process_report coerceNone coerceNone (fun c => c) dfC5 with
  | .ok (_, t, _) => t
  | .error _ => ⟨[]⟩

def diC5 : Frame String :=
  match process_report coerceNone coerceNone (fun c => c) dfC5 with
  | .ok (_, _, d) => d
  | .error _ => ⟨[]⟩

/-- C5 counterexample: in the returned Reconciled Table the `Date` column
is not the forward-filled input column.  The input `Date` column is
`[A, blank]` with `A = "hello"`; the claim demands `[A, A]`, but because
line 80 of the source re-parses the filled column with
`pd.to_datetime(..., errors='coerce').dt.date` — which on these values
yields only `NaT` — the run produces `[blank, blank]`. -/
theorem process_report_date_not_ffilled :
    process_report coerceNone coerceNone (fun c => c) dfC5 = .ok (recC5, txC5, diC5)
      ∧ recC5.col? "Date" = some [none, none]
      ∧ (dfC5.col? "Date").map ffill = some [some "hello", some "hello"]
      ∧ recC5.col? "Date" ≠ (dfC5.col? "Date").map ffill := by
  refine ⟨rfl, rfl, rfl, ?_⟩
  decide

/-- Witness for C5 (amended) at the concrete frame `dfC5`. -/
theorem process_report_forward_fill_witness :
    process_report coerceNone coerceNone (fun c => c) dfC5 = .ok (recC5, txC5, diC5)
      ∧ recC5.col? "POS Name" = some [some "P1", some "P1"]
      ∧ recC5.col? "Transaction No" = some [some "T1", some "T1"] := by
  have hpr : process_report coerceNone coerceNone (fun c => c) dfC5
      = .ok (recC5, txC5, diC5) := rfl
  have h := process_report_forward_fill coerceNone coerceNone (fun c => c)
    dfC5 recC5 txC5 diC5 hpr
  refine ⟨hpr, ?_, ?_⟩
  · rw [h.1]; rfl
  · rw [h.2.2.1]; rfl

/-! ## Claim C6: the Transaction View -/

theorem maskFilter_cons_true {α : Type} (bs : List Bool) (x : α) (xs : List α) :
    maskFilter (true :: bs) (x :: xs) = x :: maskFilter bs xs := rfl

theorem maskFilter_cons_false {α : Type} (bs : List Bool) (x : α) (xs : List α) :
    maskFilter (false :: bs) (x :: xs) = maskFilter bs xs := rfl

theorem count_maskFilter_firstOcc {κ : Type} [DecidableEq κ] :
    ∀ (ks seen : List κ) (k : κ),
      (maskFilter (firstOccMask seen ks) ks).countP (fun x => decide (x = k))
        = if k ∈ ks ∧ k ∉ seen then 1 else 0 := by
  intro ks
  induction ks with
  | nil => intro seen k; simp [firstOccMask, maskFilter]
  | cons a ks ih =>
    intro seen k
    simp only [firstOccMask]
    by_cases ha : a ∈ seen
    · have hbit : (!decide (a ∈ seen)) = false := by simp [ha]
      rw [hbit, maskFilter_cons_false]
      rw [ih (a :: seen) k]
      by_cases hk : k = a
      · subst hk
        simp [ha]
      · simp only [List.mem_cons]
        by_cases hks : k ∈ ks
        · simp [hks, hk, Ne.symm hk]
        · simp [hks, hk]
    · have hbit : (!decide (a ∈ seen)) = true := by simp [ha]
      rw [hbit, maskFilter_cons_true]
      rw [List.countP_cons, ih (a :: seen) k]
      by_cases hk : k = a
      · subst hk
        simp [ha]
      · have hak : decide (a = k) = false := by simpa using Ne.symm hk
        simp only [List.mem_cons, hak, if_neg Bool.false_ne_true]
        by_cases hks : k ∈ ks
        · simp [hks, hk, Ne.symm hk]
        · simp [hks, hk]

theorem find_zip_maskFilter_firstOcc {κ β : Type} [DecidableEq κ] :
    ∀ (ks : List κ) (seen : List κ) (xs : List β) (k : κ),
      ((maskFilter (firstOccMask seen ks) ks).zip
          (maskFilter (firstOccMask seen ks) xs)).find? (fun p => decide (p.1 = k))
        = if k ∈ seen then none
          else (ks.zip xs).find? (fun p => decide (p.1 = k)) := by
  intro ks
  induction ks with
  | nil =>
    intro seen xs k
    simp [firstOccMask, maskFilter]
  | cons a ks ih =>
    intro seen xs k
    cases xs with
    | nil =>
      simp only [firstOccMask]
      cases hbit : (!decide (a ∈ seen)) <;> simp [maskFilter]
    | cons x xs =>
      simp only [firstOccMask]
      by_cases ha : a ∈ seen
      · have hbit : (!decide (a ∈ seen)) = false := by simp [ha]
        rw [hbit, maskFilter_cons_false, maskFilter_cons_false]
        rw [ih (a :: seen) xs k]
        by_cases hk : k ∈ seen
        · simp [hk, List.mem_cons]
        · have hka : k ≠ a := fun hx => hk (hx ▸ ha)
          have hak : decide (a = k) = false := by simpa using Ne.symm hka
          simp [hk, hka, List.zip_cons_cons, List.find?_cons, hak]
      · have hbit : (!decide (a ∈ seen)) = true := by simp [ha]
        rw [hbit, maskFilter_cons_true, maskFilter_cons_true]
        by_cases hk : k = a
        · subst hk
          simp [ha, List.zip_cons_cons, List.find?_cons]
        · have hak : decide (a = k) = false := by simpa using Ne.symm hk
          rw [List.zip_cons_cons, List.find?_cons, hak]
          simp only
          rw [ih (a :: seen) xs k]
          by_cases hks : k ∈ seen
          · simp [hks, List.mem_cons]
          · simp [hks, hk, List.zip_cons_cons, List.find?_cons, hak]

theorem map_fst_filter_map {V : Type} (cols : List (String × List (Option V)))
    (g : List (Option V) → List (Option V)) (q : String → Bool) :
    ((cols.map (fun c => (c.1, g c.2))).filter (fun c => q c.1)).map Prod.fst
      = (cols.map Prod.fst).filter q := by
  induction cols with
  | nil => rfl
  | cons c cs ih =>
    simp only [List.map_cons, List.filter_cons]
    by_cases hq : q c.1 = true
    · simp [hq, ih]
    · have hq2 : q c.1 = false := by simpa using hq
      simp [hq2, ih]

/-- C6: the Transaction View has exactly one row per distinct `OR No`
value of the Reconciled Table (blank keys counting as one shared value,
as in pandas), each kept row being the first-occurring row with that key
(stated column by column: for every key, the first `(OR No, value)` pair
of any Transaction View column is the first such pair of the matching
Reconciled Table column), and its column list is the Reconciled Table's
with `Dishes` and `Dish Quantities` removed — silently, whether or not
they are present. -/
theorem process_report_transactions {V : Type} [DecidableEq V]
    (dtParse dateParse normDish : Option V → Option V) (df dfr tx di : Frame V)
    (h : process_report dtParse dateParse normDish df = .ok (dfr, tx, di)) :
    ∃ keys txOR, dfr.col? "OR No" = some keys ∧ tx.col? "OR No" = some txOR
      ∧ (∀ k, txOR.countP (fun x => decide (x = k)) = if k ∈ keys then 1 else 0)
      ∧ (∀ (n : String) (recD txD : List (Option V)),
          dfr.col? n = some recD → tx.col? n = some txD → ∀ k,
            (txOR.zip txD).find? (fun p => decide (p.1 = k))
              = (keys.zip recD).find? (fun p => decide (p.1 = k)))
      ∧ tx.cols.map Prod.fst
          = (dfr.cols.map Prod.fst).filter
              (fun n => decide (n ∉ ["Dishes", "Dish Quantities"])) := by
  obtain ⟨-, ⟨dft, hdd, htx⟩, -⟩ := process_report_ok _ _ _ _ _ _ _ h
  obtain ⟨keys, hkeys, hdft⟩ := drop_duplicates_ok _ _ _ hdd
  subst htx
  subst hdft
  have hcolmap : ∀ n, (Frame.col?
      ⟨dfr.cols.map (fun c => (c.1, maskFilter (firstOccMask [] keys) c.2))⟩ n)
        = (dfr.col? n).map (maskFilter (firstOccMask [] keys)) :=
    fun n => col?_map dfr.cols (fun _ b => maskFilter (firstOccMask [] keys) b) n
  have htxcol : ∀ n : String, (dropCols ["Dishes", "Dish Quantities"]
        ⟨dfr.cols.map (fun c => (c.1, maskFilter (firstOccMask [] keys) c.2))⟩).col? n
      = (if n ∈ ["Dishes", "Dish Quantities"] then none
          else (dfr.col? n).map (maskFilter (firstOccMask [] keys))) := by
    intro n
    rw [dropCols_col]
    by_cases hn : n ∈ ["Dishes", "Dish Quantities"]
    · simp [hn]
    · simp only [if_neg hn]
      exact hcolmap n
  refine ⟨keys, maskFilter (firstOccMask [] keys) keys, hkeys, ?_, ?_, ?_, ?_⟩
  · rw [htxcol "OR No", if_neg (by decide), hkeys]
    rfl
  · intro k
    have := count_maskFilter_firstOcc keys [] k
    simpa using this
  · intro n recD txD hrecD htxD k
    rw [htxcol n] at htxD
    by_cases hn : n ∈ ["Dishes", "Dish Quantities"]
    · rw [if_pos hn] at htxD; cases htxD
    · rw [if_neg hn, hrecD] at htxD
      have htxD2 : txD = maskFilter (firstOccMask [] keys) recD :=
        (Option.some_inj.mp htxD).symm
      subst htxD2
      have := find_zip_maskFilter_firstOcc keys [] recD k
      simpa using this
  · unfold dropCols
    exact map_fst_filter_map dfr.cols (maskFilter (firstOccMask [] keys))
      (fun n => decide (n ∉ ["Dishes", "Dish Quantities"]))

/-- Concrete input for C6: five rows whose `OR No` column is the
spec's example sequence `[1, 1, 2, 2, 3]`. -/
def dfC6 : Frame String := ⟨[
  ("Date", [some "d1", none, some "d2", none, none]),
  ("POS Name", [some "P", none, none, none, none]),
  ("Cashier Name", [some "C", none, none, none, none]),
  ("Transaction No", [some "T1", none, some "T2", none, some "T3"]),
  ("OR No", [some "1", some "1", some "2", some "2", some "3"]),
  ("Dishes", [some "a", some "b", some "c", some "d", some "e"]),
  ("Dish Quantities", [some "1", some "2", some "1", some "1", some "2"])]⟩

def recC6 : Frame String :=
  match process_report coerceNone coerceNone (fun c => c) dfC6 with
  | .ok (r, _, _) => r
  | .error _ => ⟨[]⟩

def txC6 : Frame String :=
  match process_report coerceNone coerceNone (fun c => c) dfC6 with
  | .ok (_, t, _) => t
  | .error _ => ⟨[]⟩

def diC6 : Frame String :=
  match process_report coerceNone coerceNone (fun c => c) dfC6 with
  | .ok (_, _, d) => d
  | .error _ => ⟨[]⟩

/-- Witness for C6: on the `[1, 1, 2, 2, 3]` key sequence the Transaction
View keeps exactly the three first-occurrence rows (3 rows for 5 input
rows), and the count-one property instantiates to key `"1"`. -/
theorem process_report_transactions_witness :
    process_report coerceNone coerceNone (fun c => c) dfC6 = .ok (recC6, txC6, diC6)
      ∧ txC6.col? "OR No" = some [some "1", some "2", some "3"]
      ∧ txC6.nrows = 3
      ∧ recC6.nrows = 5
      ∧ List.countP (fun x => decide (x = some "1"))
          [some "1", some "2", some "3"] = 1 := by
  have hpr : process_report coerceNone coerceNone (fun c => c) dfC6
      = .ok (recC6, txC6, diC6) := rfl
  obtain ⟨keys, txOR, hk, ht, hcount, -, -⟩ :=
    process_report_transactions coerceNone coerceNone (fun c => c)
      dfC6 recC6 txC6 diC6 hpr
  have hkeys : keys = [some "1", some "1", some "2", some "2", some "3"] := by
    have h0 : recC6.col? "OR No"
        = some [some "1", some "1", some "2", some "2", some "3"] := rfl
    rw [h0] at hk
    exact (Option.some_inj.mp hk).symm
  have htx : txOR = [some "1", some "2", some "3"] := by
    have h0 : txC6.col? "OR No" = some [some "1", some "2", some "3"] := rfl
    rw [h0] at ht
    exact (Option.some_inj.mp ht).symm
  have hc := hcount (some "1")
  rw [hkeys, htx] at hc
  refine ⟨hpr, rfl, rfl, rfl, ?_⟩
  rw [hc]
  decide

/-! ## Claim C7: the Item View is a 1:1 projection -/

theorem col?_mem {V : Type} (df : Frame V) (nm : String) (d : List (Option V))
    (h : df.col? nm = some d) : ∃ p ∈ df.cols, p.2 = d := by
  unfold Frame.col? at h
  cases hf : df.cols.find? (fun c => c.1 == nm) with
  | none => rw [hf] at h; cases h
  | some p =>
    rw [hf] at h
    refine ⟨p, List.mem_of_find?_eq_some hf, ?_⟩
    exact Option.some_inj.mp h

theorem mem_insertIdx1 {α : Type} (x c : α) (l : List α) (h : c ∈ l.insertIdx 1 x) :
    c = x ∨ c ∈ l := by
  cases l with
  | nil => exact Or.inr h
  | cons a l =>
    have h2 : c ∈ a :: x :: l := h
    rcases List.mem_cons.mp h2 with rfl | h3
    · exact Or.inr (List.mem_cons_self _ _)
    · rcases List.mem_cons.mp h3 with rfl | h4
      · exact Or.inl rfl
      · exact Or.inr (List.mem_cons_of_mem _ h4)

theorem maskFilter_length_congr {α β : Type} :
    ∀ (m : List Bool) (xs : List α) (ys : List β), xs.length = ys.length →
      (maskFilter m xs).length = (maskFilter m ys).length := by
  intro m
  induction m with
  | nil => intro xs ys _; rfl
  | cons b bs ih =>
    intro xs ys h
    cases xs with
    | nil =>
      cases ys with
      | nil => rfl
      | cons y ys => simp at h
    | cons x xs =>
      cases ys with
      | nil => simp at h
      | cons y ys =>
        simp only [List.length_cons] at h
        cases b with
        | true =>
          rw [maskFilter_cons_true, maskFilter_cons_true]
          simp only [List.length_cons]
          rw [ih xs ys (by omega)]
        | false =>
          rw [maskFilter_cons_false, maskFilter_cons_false]
          exact ih xs ys (by omega)

/-- `reconcile` preserves rectangularity: every column of the Reconciled
Table still has the input row count. -/
theorem reconcile_rect {V : Type} [DecidableEq V]
    (dtParse dateParse normDish : Option V → Option V) (df dfr : Frame V) (n : Nat)
    (hrect : Frame.rect df n)
    (h : reconcile dtParse dateParse normDish df = .ok dfr) : Frame.rect dfr n := by
  unfold reconcile at h
  cases hf : fillForward fields_to_fill df with
  | error e => rw [hf] at h; cases h
  | ok df1 =>
    rw [hf] at h
    simp only at h
    have hr1 : Frame.rect df1 n := by
      unfold fillForward at hf
      by_cases hall : (fields_to_fill.all fun nm => (df.col? nm).isSome) = true
      · rw [if_pos hall] at hf
        cases hf
        intro c hc
        rcases List.mem_map.mp hc with ⟨c0, hc0, rfl⟩
        by_cases hm : c0.1 ∈ fields_to_fill
        · simp only [if_pos hm]
          rw [length_ffill]
          exact hrect c0 hc0
        · simp only [if_neg hm]
          exact hrect c0 hc0
      · rw [if_neg hall] at hf; cases hf
    have hr2 : Frame.rect (dropCols ["No data found"] df1) n := by
      intro c hc
      exact hr1 c (List.mem_of_mem_filter hc)
    cases hd : (dropCols ["No data found"] df1).col? "Date" with
    | none => rw [hd] at h; cases h
    | some dateData =>
      rw [hd] at h
      simp only at h
      have hdlen : dateData.length = n := by
        obtain ⟨p, hp, hpd⟩ := col?_mem _ _ _ hd
        rw [← hpd]
        exact hr2 p hp
      cases hi : insertCol 1 "DateTime" (dateData.map dtParse)
          (dropCols ["No data found"] df1) with
      | error e => rw [hi] at h; cases h
      | ok df3 =>
        rw [hi] at h
        simp only at h
        obtain ⟨hdf3, -⟩ := insertCol_ok_col _ _ _ _ _ hi
        have hr3 : Frame.rect df3 n := by
          rw [hdf3]
          intro c hc
          rcases mem_insertIdx1 _ _ _ hc with rfl | hc2
          · simp only [List.length_map]
            exact hdlen
          · exact hr2 c hc2
        have hr4 : Frame.rect (setCol "Date" (dateData.map dateParse) df3) n := by
          intro c hc
          rcases List.mem_map.mp hc with ⟨c0, hc0, rfl⟩
          by_cases hm : (c0.1 == "Date") = true
          · simp only [hm, if_true, List.length_map]
            exact hdlen
          · have hm2 : (c0.1 == "Date") = false := by simpa using hm
            simp only [hm2]
            simp only [if_neg Bool.false_ne_true]
            exact hr3 c0 hc0
        cases hdish : (setCol "Date" (dateData.map dateParse) df3).col? "Dishes" with
        | some d =>
          rw [hdish] at h
          cases h
          intro c hc
          rcases List.mem_map.mp hc with ⟨c0, hc0, rfl⟩
          by_cases hm : (c0.1 == "Dishes") = true
          · simp only [hm, if_true, List.length_map]
            obtain ⟨p, hp, hpd⟩ := col?_mem _ _ _ hdish
            rw [← hpd]
            exact hr4 p hp
          · have hm2 : (c0.1 == "Dishes") = false := by simpa using hm
            simp only [hm2]
            simp only [if_neg Bool.false_ne_true]
            exact hr4 c0 hc0
        | none =>
          rw [hdish] at h
          cases h
          exact hr4

/-- C7: for every rectangular input on which `process_report` succeeds,
the Item View has exactly as many rows as the Reconciled Table — it is a
1:1 projection, its columns being the very column lists of the Reconciled
Table selected by `dish_columns`. -/
theorem process_report_item_rows {V : Type} [DecidableEq V]
    (dtParse dateParse normDish : Option V → Option V) (df dfr tx di : Frame V) (n : Nat)
    (hrect : Frame.rect df n)
    (h : process_report dtParse dateParse normDish df = .ok (dfr, tx, di)) :
    di.nrows = dfr.nrows ∧ dfr.nrows = n := by
  obtain ⟨hrec, -, hsel⟩ := process_report_ok _ _ _ _ _ _ _ h
  have hrr : Frame.rect dfr n := reconcile_rect _ _ _ _ _ n hrect hrec
  obtain ⟨hcols, hall⟩ := selectCols_ok _ _ _ hsel
  obtain ⟨dd, -, -, hdate, -⟩ := reconcile_col _ _ _ _ _ hrec
  obtain ⟨p, hp, -⟩ := col?_mem dfr "Date" _ hdate
  have h1 : dfr.nrows = n := by
    cases hc : dfr.cols with
    | nil => rw [hc] at hp; cases hp
    | cons c cs =>
      unfold Frame.nrows
      rw [hc]
      exact hrr c (by rw [hc]; exact List.mem_cons_self _ _)
  have hor : (dfr.col? "OR No").isSome = true := hall "OR No" (by simp [dish_columns])
  have h2 : di.nrows = n := by
    cases ho : dfr.col? "OR No" with
    | none => rw [ho] at hor; cases hor
    | some d =>
      have hdn : d.length = n := by
        obtain ⟨q, hq, hqd⟩ := col?_mem dfr "OR No" d ho
        rw [← hqd]
        exact hrr q hq
      unfold Frame.nrows
      rw [hcols]
      simp only [dish_columns, List.map_cons]
      rw [ho]
      exact hdn
  rw [h1, h2]
  exact ⟨rfl, rfl⟩

/-- Concrete input for C7: a rectangular three-row frame. -/
def dfC7 : Frame String := ⟨[
  ("Date", [some "x", none, none]),
  ("POS Name", [some "P", none, none]),
  ("Cashier Name", [some "C", none, none]),
  ("Transaction No", [some "T", none, none]),
  ("OR No", [some "1", some "1", some "2"]),
  ("Dishes", [some "a", some "b", some "c"]),
  ("Dish Quantities", [some "1", some "1", some "2"])]⟩

def recC7 : Frame String :=
  match process_report coerceNone coerceNone (fun c => c) dfC7 with
  | .ok (r, _, _) => r
  | .error _ => ⟨[]⟩

def txC7 : Frame String :=
  match process_report coerceNone coerceNone (fun c => c) dfC7 with
  | .ok (_, t, _) => t
  | .error _ => ⟨[]⟩

def diC7 : Frame String :=
  match process_report coerceNone coerceNone (fun c => c) dfC7 with
  | .ok (_, _, d) => d
  | .error _ => ⟨[]⟩

/-- Witness for C7 at the concrete frame `dfC7`: three reconciled rows,
three Item View rows. -/
theorem process_report_item_rows_witness :
    Frame.rect dfC7 3
      ∧ process_report coerceNone coerceNone (fun c => c) dfC7 = .ok (recC7, txC7, diC7)
      ∧ diC7.nrows = recC7.nrows
      ∧ recC7.nrows = 3 := by
  have hpr : process_report coerceNone coerceNone (fun c => c) dfC7
      = .ok (recC7, txC7, diC7) := rfl
  have hrect : Frame.rect dfC7 3 := by
    intro c hc
    fin_cases hc <;> rfl
  have h := process_report_item_rows coerceNone coerceNone (fun c => c)
    dfC7 recC7 txC7 diC7 3 hrect hpr
  exact ⟨hrect, hpr, h.1, h.2⟩

/-! ## Claims C2 and C4: normalizer input/output contract -/

/-- C2 (amended): on the spec's sample input the normalizer returns
`"BURGER WITH CHEESE AND FRIES"`: `(`/`)` are removed, `W/` becomes
`WITH`, `&` becomes `AND`, the `PCS` substring and the digits `2`, `3`
are removed, and the whitespace left behind is collapsed — leaving a
single `FRIES`. -/
theorem clean_dish_name_burger :
    clean_dish_name (PyObj.pstr "Burger W/ Cheese & Fries (2) PCS 3".toList)
      = "BURGER WITH CHEESE AND FRIES".toList := by decide

/-- C2 counterexample: the claimed output `"BURGER WITH CHEESE AND FRIES
FRIES"` duplicates `FRIES`; tracing the fixed rule order of the source
leaves only one `FRIES`, so the claimed exact output is wrong. -/
theorem clean_dish_name_burger_ne_spec :
    clean_dish_name (PyObj.pstr "Burger W/ Cheese & Fries (2) PCS 3".toList)
      ≠ "BURGER WITH CHEESE AND FRIES FRIES".toList := by decide

/-- C4: every non-string input short-circuits through the `isinstance`
guard to the empty string; `clean_dish_name` is total, so no exception is
possible. -/
theorem clean_dish_name_non_string (o : PyObj) (h : ∀ s, o ≠ .pstr s) :
    clean_dish_name o = [] := by
  cases o with
  | pstr s => exact absurd rfl (h s)
  | nonString t => rfl

/-- Witness for C4 at a concrete non-string input. -/
theorem clean_dish_name_non_string_witness :
    (∀ s, PyObj.nonString 7 ≠ PyObj.pstr s)
      ∧ clean_dish_name (PyObj.nonString 7) = [] :=
  ⟨fun _ h => PyObj.noConfusion h,
    clean_dish_name_non_string (PyObj.nonString 7) (fun _ h => PyObj.noConfusion h)⟩

/-! ## Claims C8 and C10: hard failures on missing columns -/

/-- C8: if, once the Reconciled Table is built, any of the eight
`dish_columns` is absent from it, `process_report` fails with an error
instead of returning the three views, and in a run whose merge produced
that table the error propagates out of `mainRun` uncaught — no workbook
is written. -/
theorem process_report_missing_item_column {V : Type} [DecidableEq V]
    (dtParse dateParse normDish : Option V → Option V) (df dfr : Frame V)
    (hrec : reconcile dtParse dateParse normDish df = .ok dfr)
    (hmiss : ∃ nm ∈ dish_columns, dfr.col? nm = none) :
    (∃ m, process_report dtParse dateParse normDish df = .error m)
      ∧ ∀ (files : List (SourceFile V)) (logs : List String),
          merge_files files = .ok (logs, df) → df.empty = false →
          ∃ m, mainRun dtParse dateParse normDish files = .uncaught m := by
  have h1 : ∃ m, process_report dtParse dateParse normDish df = .error m := by
    unfold process_report
    rw [hrec]
    simp only
    cases hd : drop_duplicates "OR No" dfr with
    | error e => exact ⟨e, rfl⟩
    | ok dft =>
      simp only
      rw [selectCols_error dish_columns dfr hmiss]
      exact ⟨"KeyError", rfl⟩
  refine ⟨h1, ?_⟩
  intro files logs hm hne
  obtain ⟨m, hpr⟩ := h1
  refine ⟨m, ?_⟩
  unfold mainRun
  rw [hm]
  simp only
  rw [if_neg (by simp [hne]), hpr]

/-- Concrete input for C8: a one-row frame with no `Dishes` column. -/
def dfC8 : Frame String := ⟨[
  ("Date", [some "x"]),
  ("POS Name", [some "P"]),
  ("Cashier Name", [some "C"]),
  ("Transaction No", [some "T"]),
  ("OR No", [some "1"]),
  ("Dish Quantities", [some "1"])]⟩

def recC8 : Frame String :=
  match reconcile coerceNone coerceNone (fun c => c) dfC8 with
  | .ok r => r
  | .error _ => ⟨[]⟩

/-- Witness for C8: reconciliation succeeds on `dfC8`, the Item View
projection then misses `Dishes`, and `process_report` fails. -/
theorem process_report_missing_item_column_witness :
    reconcile coerceNone coerceNone (fun c => c) dfC8 = .ok recC8
      ∧ recC8.col? "Dishes" = none
      ∧ process_report coerceNone coerceNone (fun c => c) dfC8 = .error "KeyError" := by
  have h := process_report_missing_item_column coerceNone coerceNone (fun c => c)
    dfC8 recC8 rfl ⟨"Dishes", by decide, rfl⟩
  obtain ⟨m, hm⟩ := h.1
  exact ⟨rfl, rfl, rfl⟩

/-- C10: the forward-fill step `df[fields_to_fill] = df[fields_to_fill].ffill()`
requires all four header columns; pandas label-list indexing raises
`KeyError` when one is missing, `process_report` propagates it, and the
run aborts uncaught. -/
theorem process_report_missing_header_column {V : Type} [DecidableEq V]
    (dtParse dateParse normDish : Option V → Option V) (df : Frame V)
    (hmiss : ∃ nm ∈ fields_to_fill, df.col? nm = none) :
    process_report dtParse dateParse normDish df = .error "KeyError"
      ∧ (∀ (files : List (SourceFile V)) (logs : List String),
          merge_files files = .ok (logs, df) → df.empty = false →
          mainRun dtParse dateParse normDish files = .uncaught "KeyError")
      ∧ ∀ (df2 dfr2 : Frame V), reconcile dtParse dateParse normDish df2 = .ok dfr2 →
          ∀ nm ∈ fields_to_fill, (df2.col? nm).isSome = true := by
  have h1 : process_report dtParse dateParse normDish df = .error "KeyError" := by
    unfold process_report reconcile
    rw [fillForward_error fields_to_fill df hmiss]
  refine ⟨h1, ?_, ?_⟩
  · intro files logs hm hne
    unfold mainRun
    rw [hm]
    simp only
    rw [if_neg (by simp [hne]), h1]
  · intro df2 dfr2 hrec2 nm hnm
    unfold reconcile at hrec2
    cases hf : fillForward fields_to_fill df2 with
    | error e => rw [hf] at hrec2; cases hrec2
    | ok d1 => exact (fillForward_ok_iff fields_to_fill df2).mp ⟨d1, hf⟩ nm hnm

/-- Concrete input for C10: a frame missing the `Date` header column. -/
def dfC10 : Frame String := ⟨[("POS Name", [some "x"]), ("OR No", [some "1"])]⟩

/-- Witness for C10: with `Date` absent the run fails with `KeyError`. -/
theorem process_report_missing_header_column_witness :
    dfC10.col? "Date" = none
      ∧ process_report coerceNone coerceNone (fun c => c) dfC10 = .error "KeyError" := by
  have h := process_report_missing_header_column coerceNone coerceNone (fun c => c)
    dfC10 ⟨"Date", by decide, rfl⟩
  exact ⟨rfl, h.1⟩

/-! ## Claims C3 and C9: per-file ingestion failures and the empty result -/

/-- The log lines produced by the caught per-file failures, in file order. -/
def fileLogs {V : Type} (files : List (SourceFile V)) : List String :=
  files.filterMap (fun f =>
    match readFile f with
    | .caught l => some l
    | _ => none)

/-- The successfully parsed frames, in file order. -/
def fileFrames {V : Type} (files : List (SourceFile V)) : List (Frame V) :=
  files.filterMap (fun f =>
    match readFile f with
    | .parsed d => some d
    | _ => none)

theorem mergeLoop_no_raise {V : Type} :
    ∀ (files : List (SourceFile V)),
      (∀ f ∈ files, ∀ m, readFile f ≠ .raised m) →
      mergeLoop files = .ok (fileLogs files, fileFrames files) := by
  intro files
  induction files with
  | nil => intro _; rfl
  | cons f fs ih =>
    intro h
    have htail := ih (fun g hg m => h g (List.mem_cons_of_mem f hg) m)
    cases hr : readFile f with
    | parsed d =>
      simp only [mergeLoop, hr, htail, Except.map]
      simp [fileLogs, fileFrames, List.filterMap_cons, hr]
    | caught l =>
      simp only [mergeLoop, hr, htail, Except.map]
      simp [fileLogs, fileFrames, List.filterMap_cons, hr]
    | raised m => exact absurd hr (h f (List.mem_cons_self f fs) m)

/-- C3 (amended): when no file hits a failure inside the UTF-8 retry,
every other per-file failure (any non-`UnicodeDecodeError` exception of
the GBK attempt) is caught by the `except Exception` clause, logged with
the file name and error message, and the file is skipped while all
successfully parsed files are still ingested and concatenated; such a
retry failure, however, is not caught by any clause of the same `try`
statement and aborts ingestion (see the counterexample theorem). -/
theorem merge_files_caught_skipped {V : Type} [DecidableEq V] (files : List (SourceFile V))
    (h : ∀ f ∈ files, ∀ m, readFile f ≠ .raised m) :
    merge_files files = .ok (fileLogs files,
        if (fileFrames files).isEmpty then (⟨[]⟩ : Frame V)
        else concatFrames (fileFrames files))
      ∧ (∀ f ∈ files, ∀ msg, f.gbk = .exn .otherError msg →
          errLine f.name msg ∈ fileLogs files)
      ∧ (∀ f ∈ files, ∀ d, f.gbk = .ok d → d ∈ fileFrames files) := by
  refine ⟨?_, ?_, ?_⟩
  · unfold merge_files
    rw [mergeLoop_no_raise files h]
  · intro f hf msg hgbk
    have hrf : readFile f = .caught (errLine f.name msg) := by
      unfold readFile
      rw [hgbk]
    refine List.mem_filterMap.mpr ⟨f, hf, ?_⟩
    rw [hrf]
  · intro f hf d hgbk
    have hrf : readFile f = .parsed d := by
      unfold readFile
      rw [hgbk]
    refine List.mem_filterMap.mpr ⟨f, hf, ?_⟩
    rw [hrf]

/-- A frame used by the ingestion examples. -/
def goodFrame : Frame String := ⟨[("A", [some "x"])]⟩

/-- A file whose GBK attempt raises `UnicodeDecodeError` and whose UTF-8
retry itself fails. -/
def fBad : SourceFile String :=
  ⟨"bad.xls", .exn .unicodeDecodeError "gbk decode failure",
    .exn .otherError "utf8 parse failure"⟩

/-- A file that parses fine under GBK. -/
def fGood : SourceFile String := ⟨"good.xls", .ok goodFrame, .ok goodFrame⟩

/-- C3 counterexample: a failure during the UTF-8 retry is not caught —
`except Exception` belongs to the same `try` statement as the
`except UnicodeDecodeError` handler that raised it, so ingestion aborts:
`merge_files` raises instead of logging and skipping, the following valid
file is never ingested, and the run aborts. -/
theorem merge_files_retry_failure_aborts :
    merge_files [fBad, fGood] = .error "utf8 parse failure"
      ∧ mainRun coerceNone coerceNone (fun c => c) [fBad, fGood]
          = .uncaught "utf8 parse failure" := ⟨rfl, rfl⟩

/-- A corrupt file whose GBK attempt raises a non-Unicode exception. -/
def fCaught : SourceFile String :=
  ⟨"corrupt.xls", .exn .otherError "parse failure", .ok ⟨[]⟩⟩

/-- Witness for C3 (amended): one corrupt (caught) file plus one valid
file; the corrupt one is logged and skipped, the valid one is ingested. -/
theorem merge_files_caught_skipped_witness :
    (∀ f ∈ [fCaught, fGood], ∀ m, readFile f ≠ ReadOutcome.raised m)
      ∧ merge_files [fCaught, fGood]
          = .ok (fileLogs [fCaught, fGood],
              if (fileFrames [fCaught, fGood]).isEmpty then (⟨[]⟩ : Frame String)
              else concatFrames (fileFrames [fCaught, fGood]))
      ∧ fileLogs [fCaught, fGood] = [errLine "corrupt.xls" "parse failure"]
      ∧ fileFrames [fCaught, fGood] = [goodFrame] := by
  have hno : ∀ f ∈ [fCaught, fGood], ∀ m, readFile f ≠ ReadOutcome.raised m := by
    intro f hf m
    fin_cases hf <;> simp [readFile, fCaught, fGood]
  have h := merge_files_caught_skipped [fCaught, fGood] hno
  exact ⟨hno, h.1, rfl, rfl⟩

/-- C9 (amended): when `merge_files` completes with no file parsed
successfully — every file's failure being of the caught kind, including
the vacuous zero-file case — it returns the empty frame as a normal
(non-error) result, that frame is `empty`, and the driver then reports
the warning and exits before `process_report` or any export. -/
theorem merge_files_no_success_empty {V : Type} [DecidableEq V] (files : List (SourceFile V))
    (h : ∀ f ∈ files, ∃ l, readFile f = .caught l) :
    merge_files files = .ok (fileLogs files, (⟨[]⟩ : Frame V))
      ∧ Frame.empty (⟨[]⟩ : Frame V) = true
      ∧ ∀ (dtParse dateParse normDish : Option V → Option V),
          mainRun dtParse dateParse normDish files
            = .noData "[WARNING] No valid .xls files found or all files failed to load." := by
  have hno : ∀ f ∈ files, ∀ m, readFile f ≠ .raised m := by
    intro f hf m hx
    obtain ⟨l, hl⟩ := h f hf
    rw [hl] at hx
    cases hx
  have hframes : fileFrames files = [] := by
    unfold fileFrames
    rw [List.filterMap_eq_nil_iff]
    intro f hf
    obtain ⟨l, hl⟩ := h f hf
    rw [hl]
  have h1 : merge_files files = .ok (fileLogs files, (⟨[]⟩ : Frame V)) := by
    unfold merge_files
    rw [mergeLoop_no_raise files hno]
    simp only
    rw [hframes]
    rfl
  refine ⟨h1, rfl, ?_⟩
  intro dtParse dateParse normDish
  unfold mainRun
  rw [h1]
  rfl

/-- The only file of the C9 counterexample: GBK raises
`UnicodeDecodeError` and the UTF-8 retry also fails, so nothing parses. -/
def fBad9 : SourceFile String :=
  ⟨"only.xls", .exn .unicodeDecodeError "gbk decode failure", .exn .otherError "utf8 crash"⟩

/-- C9 counterexample: a run in which no file parses successfully but
`merge_files` does not return an empty table as a normal result — the
UTF-8 retry failure propagates, no warning is reported, and the run
aborts with the exception instead of exiting early. -/
theorem merge_files_no_success_raises :
    merge_files [fBad9] = .error "utf8 crash"
      ∧ mainRun coerceNone coerceNone (fun c => c) [fBad9] = .uncaught "utf8 crash"
      ∧ (∀ d, fBad9.gbk ≠ .ok d)
      ∧ (∀ d, fBad9.utf8 ≠ .ok d) :=
  ⟨rfl, rfl, fun _ h => PyResult.noConfusion h, fun _ h => PyResult.noConfusion h⟩

/-- The only file of the C9 witness: its GBK attempt fails with a caught
(non-Unicode) exception. -/
def fCaught9 : SourceFile String :=
  ⟨"broken.xls", .exn .otherError "missing columns", .ok ⟨[]⟩⟩

/-- Witness for C9 (amended): a single caught-failure file gives the
empty frame and the warning exit. -/
theorem merge_files_no_success_empty_witness :
    readFile fCaught9 = ReadOutcome.caught (errLine "broken.xls" "missing columns")
      ∧ merge_files [fCaught9] = .ok (fileLogs [fCaught9], (⟨[]⟩ : Frame String))
      ∧ mainRun coerceNone coerceNone (fun c => c) [fCaught9]
          = .noData "[WARNING] No valid .xls files found or all files failed to load." := by
  have h := merge_files_no_success_empty [fCaught9]
    (by intro f hf; fin_cases hf; exact ⟨_, rfl⟩)
  exact ⟨rfl, h.1, h.2.2 coerceNone coerceNone (fun c => c)⟩
